import Mathlib

/-!
Verification of the `ver-stub` section-buffer codec and the
`ver-stub-build` object-file section locator/patcher.

The definitions below are shallow embeddings of the Rust sources:

* `src/ver-stub/src/lib.rs` — the runtime decoder (`Member::get_idx_from_buffer`,
  `read_buffer_byte`, `read_buffer_u16`, `header_size`, `BUFFER_SIZE`).
* `src/ver-stub-build/src/lib.rs` — the encoder (`build_section_buffer`).
* `src/ver-stub-build/src/llvm_tools/parsing.rs` — `BinaryFormat::detect`,
  `extract_name`, `parse_size`, `parse_elf_sections`, `parse_macho_sections`,
  `matches_macho_section`, `parse_coff_sections`.
* `src/ver-stub-build/src/update_section.rs` — the patch step of
  `UpdateSectionCommand::write_to` (modelled as an effect trace).

Machine integers are modelled as `Nat` with explicit `% 2^w` where overflow
matters; byte buffers are `List Nat` together with `< 256` hypotheses where
relevant; Rust panics are modelled by `Except` error values.
-/

set_option maxRecDepth 8192

/-- Decidable equality for `Except`, used to evaluate concrete runs of the
embedded functions. -/
instance {ε α : Type} [DecidableEq ε] [DecidableEq α] : DecidableEq (Except ε α) := fun a b =>
  match a, b with
  | .ok x, .ok y =>
    if h : x = y then .isTrue (h ▸ rfl) else .isFalse (fun hh => h (Except.ok.inj hh))
  | .error x, .error y =>
    if h : x = y then .isTrue (h ▸ rfl) else .isFalse (fun hh => h (Except.error.inj hh))
  | .ok _, .error _ => .isFalse (fun hh => Except.noConfusion hh)
  | .error _, .ok _ => .isFalse (fun hh => Except.noConfusion hh)

namespace VerStub

/-! ## Codec data model (src/ver-stub/src/lib.rs) -/

/-- Header size for a given number of members: 1 byte (num_members) plus
2 bytes per member, mirroring `header_size` in ver-stub. -/
def header_size (num_members : Nat) : Nat := 1 + num_members * 2

/-- Number of members defined at compile time of the current code
(`Member::COUNT` in ver-stub). -/
def memberCount : Nat := 9

/-- Panic conditions of the runtime decoder.  `outOfBounds` models the assert
in `read_buffer_byte`; the other three model the explicit panics of
`get_idx_from_buffer`. -/
inductive Panic where
  | outOfBounds
  | invalidRange
  | endExceedsBuffer
  | invalidUtf8
deriving DecidableEq, Repr

/-- Models `Member::read_buffer_byte`: asserts `offset < BUFFER_SIZE` (here the
parameter `B`) and reads the byte.  The volatile read is semantically the
identity. -/
def read_buffer_byte (B : Nat) (buffer : List Nat) (offset : Nat) : Except Panic Nat :=
  if offset < B then .ok (buffer.getD offset 0) else .error .outOfBounds

/-- Models `Member::read_buffer_u16`: two byte reads combined little-endian
with `lo | (hi << 8)`. -/
def read_buffer_u16 (B : Nat) (buffer : List Nat) (offset : Nat) : Except Panic Nat := do
  let lo ← read_buffer_byte B buffer offset
  let hi ← read_buffer_byte B buffer (offset + 1)
  return lo ||| (hi <<< 8)

/-- Is `b` a UTF-8 continuation byte (`0x80..=0xBF`)? -/
def isContByte (b : Nat) : Bool := 0x80 ≤ b && b ≤ 0xBF

/-- UTF-8 validity of a byte sequence, following the checks performed by
`core::str::from_utf8` (RFC 3629: no overlong forms, no surrogates, max
U+10FFFF). -/
def utf8Valid : List Nat → Bool
  | [] => true
  | b :: rest =>
    if b ≤ 0x7F then utf8Valid rest
    else if b < 0xC2 then false
    else if b ≤ 0xDF then
      match rest with
      | c1 :: r => isContByte c1 && utf8Valid r
      | [] => false
    else if b ≤ 0xEF then
      match rest with
      | c1 :: c2 :: r =>
        (if b = 0xE0 then decide (0xA0 ≤ c1 ∧ c1 ≤ 0xBF)
         else if b = 0xED then decide (0x80 ≤ c1 ∧ c1 ≤ 0x9F)
         else isContByte c1) && isContByte c2 && utf8Valid r
      | _ => false
    else if b ≤ 0xF4 then
      match rest with
      | c1 :: c2 :: c3 :: r =>
        (if b = 0xF0 then decide (0x90 ≤ c1 ∧ c1 ≤ 0xBF)
         else if b = 0xF4 then decide (0x80 ≤ c1 ∧ c1 ≤ 0x8F)
         else isContByte c1) && isContByte c2 && isContByte c3 && utf8Valid r
      | _ => false
    else false

/-- The byte range `buffer[s..e]`. -/
def sliceBytes (buffer : List Nat) (s e : Nat) : List Nat :=
  (buffer.drop s).take (e - s)

/-- Models `Member::get_idx_from_buffer` for a reader compiled with buffer size
`B` (the `BUFFER_SIZE` constant, default 512, constrained to `32 < B ≤ 65535`):
returns `.ok none` for an absent member, `.ok (some bytes)` for a present
member (the UTF-8 bytes of the returned `&str`), and `.error _` where the Rust
code panics. -/
def get_idx_from_buffer (B : Nat) (idx : Nat) (buffer : List Nat) :
    Except Panic (Option (List Nat)) := do
  let actual_num_members ← read_buffer_byte B buffer 0
  if actual_num_members = 0 then
    return none
  else if actual_num_members ≤ idx then
    return none
  else
    let actual_header_size := header_size actual_num_members
    let end_offset_pos := 1 + idx * 2
    let endVal ← read_buffer_u16 B buffer end_offset_pos
    let endPos := actual_header_size + endVal
    let startPos ←
      if idx = 0 then
        pure actual_header_size
      else do
        let prevVal ← read_buffer_u16 B buffer (1 + (idx - 1) * 2)
        pure (actual_header_size + prevVal)
    if startPos = endPos then
      return none
    else if endPos < startPos then
      .error .invalidRange
    else if B < endPos then
      .error .endExceedsBuffer
    else
      let bytes := sliceBytes buffer startPos endPos
      if utf8Valid bytes then return (some bytes) else .error .invalidUtf8

/-! Pure derived offsets, used to state claims about the decoder.  These agree
with the reads performed by `get_idx_from_buffer` whenever those reads are in
bounds. -/

/-- Pure byte read (no bounds assert), used only in claim statements. -/
def pureByte (buffer : List Nat) (offset : Nat) : Nat := buffer.getD offset 0

/-- Pure little-endian u16 read, used only in claim statements. -/
def pureU16 (buffer : List Nat) (offset : Nat) : Nat :=
  pureByte buffer offset ||| (pureByte buffer (offset + 1) <<< 8)

/-- The derived end position for member `idx` of a buffer whose first byte is
`k`: `header_size k` plus the stored end offset of member `idx`. -/
def derivedEnd (buffer : List Nat) (idx : Nat) : Nat :=
  header_size (pureByte buffer 0) + pureU16 buffer (1 + idx * 2)

/-- The derived start position for member `idx`: `header_size k` for member 0,
otherwise `header_size k` plus the stored end offset of member `idx - 1`. -/
def derivedStart (buffer : List Nat) (idx : Nat) : Nat :=
  if idx = 0 then header_size (pureByte buffer 0)
  else header_size (pureByte buffer 0) + pureU16 buffer (1 + (idx - 1) * 2)

/-! ## Encoder (src/ver-stub-build/src/lib.rs, `build_section_buffer`) -/

/-- Panic conditions of the encoder: the explicit capacity panic (carrying the
attempted end position and the buffer size, i.e. the size comparison printed in
the message), and the implicit out-of-bounds panic of a slice write. -/
inductive BuildPanic where
  | capacity (absolute_end buffer_size : Nat)
  | indexOutOfBounds
deriving DecidableEq, Repr

/-- Is this encoder result the capacity panic (the panic whose message contains
the size comparison)? -/
def isCapacityError : Except BuildPanic (List Nat) → Bool
  | .error (.capacity _ _) => true
  | _ => false

/-- Models `buffer[i] = v` on a `Vec<u8>`: out-of-bounds indexing panics. -/
def setByte (buf : List Nat) (i v : Nat) : Except BuildPanic (List Nat) :=
  if i < buf.length then .ok (buf.set i v) else .error .indexOutOfBounds

/-- Models `buffer[start..start+data.len()].copy_from_slice(data)`:
out-of-bounds slicing panics. -/
def writeBytes (buf : List Nat) (start : Nat) (data : List Nat) :
    Except BuildPanic (List Nat) :=
  if start + data.length ≤ buf.length then
    .ok (buf.take start ++ data ++ buf.drop (start + data.length))
  else .error .indexOutOfBounds

/-- Member data as handed to `build_section_buffer`: one optional byte string
per member (the bytes of a Rust `String`). -/
def MemberData := List (Option (List Nat))

/-- Length contributed by one member's data. -/
def optLen : Option (List Nat) → Nat
  | some s => s.length
  | none => 0

/-- The loop body of `build_section_buffer`: walks the member data in index
order, copying present strings after the header and recording each member's
cumulative relative end offset as a little-endian u16 (`as u16` truncation
modelled by `% 256` / `/ 256 % 256`). -/
def build_loop (buffer_size : Nat) :
    List (Option (List Nat)) → Nat → Nat → List Nat → Except BuildPanic (List Nat)
  | [], _, _, buf => .ok buf
  | d :: rest, idx, relative_offset, buf => do
    let (buf, relative_offset) ←
      match d with
      | some s =>
        let absolute_start := header_size memberCount + relative_offset
        let absolute_end := absolute_start + s.length
        if buffer_size < absolute_end then
          Except.error (.capacity absolute_end buffer_size)
        else do
          let buf ← writeBytes buf absolute_start s
          pure (buf, relative_offset + s.length)
      | none => pure (buf, relative_offset)
    let header_offset := 1 + idx * 2
    let buf ← writeBytes buf header_offset
      [relative_offset % 256, relative_offset / 256 % 256]
    build_loop buffer_size rest (idx + 1) relative_offset buf

/-- Models `build_section_buffer`: allocates a zeroed buffer of
`buffer_size` bytes, writes `Member::COUNT` into byte 0, then runs the member
walk.  `.error` marks the panics of the Rust function. -/
def build_section_buffer (member_data : List (Option (List Nat))) (buffer_size : Nat) :
    Except BuildPanic (List Nat) := do
  let buf := List.replicate buffer_size 0
  let buf ← setByte buf 0 memberCount
  build_loop buffer_size member_data 0 0 buf

/-! Derived quantities used to state claims about the encoder. -/

/-- Sum of the lengths of the present strings among the first `i` members. -/
def prevCum : List (Option (List Nat)) → Nat → Nat
  | _, 0 => 0
  | [], _ + 1 => 0
  | d :: rest, i + 1 => optLen d + prevCum rest i

/-- Cumulative size of all present strings. -/
def totalLen : List (Option (List Nat)) → Nat
  | [] => 0
  | d :: rest => optLen d + totalLen rest

/-- The concatenated payload of all present strings, in index order. -/
def payloadBytes : List (Option (List Nat)) → List Nat
  | [] => []
  | some s :: rest => s ++ payloadBytes rest
  | none :: rest => payloadBytes rest

/-- Byte `j` of the offset table written by the walk for member data `md`
starting at relative offset `relOff`: the little-endian u16 encoding of the
cumulative end offset of member `j / 2`. -/
def hdrByte (md : List (Option (List Nat))) (relOff j : Nat) : Nat :=
  if j % 2 = 0 then (relOff + prevCum md (j / 2 + 1)) % 256
  else (relOff + prevCum md (j / 2 + 1)) / 256 % 256

/-! ## Report parsing (src/ver-stub-build/src/llvm_tools/parsing.rs)

Rust strings are modelled as `List Char`; a report is a list of lines (Rust's
first step is `output.lines()`).  The string primitives used by the source
(`trim`, `strip_prefix`, `find`, `to_lowercase`, `starts_with`, `contains`,
integer parsing) are given explicit recursive definitions below with the same
semantics on the ASCII text these reports consist of. -/

/-- Whitespace as recognized by `str::trim` (ASCII subset). -/
def isWsChar (c : Char) : Bool := c = ' ' || c = '\t' || c = '\n' || c = '\r'

/-- Models `str::trim`. -/
def trimCh (s : List Char) : List Char :=
  ((s.dropWhile isWsChar).reverse.dropWhile isWsChar).reverse

/-- Models `str::strip_prefix`: `stripPfxCh pat s` is the rest of `s` after
`pat`, or `none` when `pat` does not lead `s`. -/
def stripPfxCh : List Char → List Char → Option (List Char)
  | [], s => some s
  | _ :: _, [] => none
  | p :: ps, c :: cs => if p = c then stripPfxCh ps cs else none

/-- Models `str::starts_with`. -/
def hasPfxCh (pat s : List Char) : Bool := (stripPfxCh pat s).isSome

/-- Models `str::contains` for a literal pattern. -/
def containsSub (pat : List Char) : List Char → Bool
  | [] => pat.isEmpty
  | c :: cs => hasPfxCh pat (c :: cs) || containsSub pat cs

/-- Models `str::to_lowercase` on ASCII text. -/
def toLowerCh (s : List Char) : List Char := s.map Char.toLower

/-- Models `Member`-report key tokens. -/
def nameTag : List Char := ("Name:").data

/-- The `Segment:` key of Mach-O report blocks. -/
def segmentTag : List Char := ("Segment:").data

/-- The `Size:` key of ELF/Mach-O report blocks. -/
def sizeTag : List Char := ("Size:").data

/-- The `RawDataSize:` key of COFF report blocks. -/
def rawDataSizeTag : List Char := ("RawDataSize:").data

/-- The ELF writable-flag token. -/
def shfWriteTok : List Char := ("SHF_WRITE").data

/-- The COFF writable-characteristic token. -/
def imageScnMemWriteTok : List Char := ("IMAGE_SCN_MEM_WRITE").data

/-- A block's closing marker line (after trimming). -/
def closeBraceLine : List Char := ("\x7d").data

/-- A block's opening marker line (after trimming). -/
def sectionOpenLine : List Char := ("Section \x7b").data

/-- The Mach-O writable-data segment name. -/
def dataSegment : List Char := ("__DATA").data

/-- The `Format:` key scanned by the format detector. -/
def formatTag : List Char := ("Format:").data

/-- Models the helper `extract_name`: strips `pfx` from the line, cuts at the
first `(` (Rust: `part.find('(')` and `part[..idx]`), and trims. -/
def extract_name (line pfx : List Char) : Option (List Char) :=
  match stripPfxCh pfx line with
  | some part => some (trimCh (part.takeWhile (fun c => c ≠ '(')))
  | none => none

/-- Decimal digit value of a character. -/
def digitVal? (c : Char) : Option Nat :=
  if '0' ≤ c ∧ c ≤ '9' then some (c.toNat - ('0').toNat) else none

/-- Hexadecimal digit value of a character (as accepted by
`usize::from_str_radix(_, 16)`). -/
def hexDigitVal? (c : Char) : Option Nat :=
  if '0' ≤ c ∧ c ≤ '9' then some (c.toNat - ('0').toNat)
  else if 'a' ≤ c ∧ c ≤ 'f' then some (c.toNat - ('a').toNat + 10)
  else if 'A' ≤ c ∧ c ≤ 'F' then some (c.toNat - ('A').toNat + 10)
  else none

/-- Accumulating digit parse; fails on the first non-digit. -/
def parseDigits (dv : Char → Option Nat) (radix : Nat) : Nat → List Char → Option Nat
  | acc, [] => some acc
  | acc, c :: cs =>
    match dv c with
    | some d => parseDigits dv radix (acc * radix + d) cs
    | none => none

/-- Models Rust's unsigned integer parsing (`usize::from_str` /
`usize::from_str_radix`): an optional leading `+`, at least one digit, and an
overflow error above `usize::MAX` (64-bit). -/
def parseUnsignedRadix (dv : Char → Option Nat) (radix : Nat) (cs : List Char) : Option Nat :=
  let cs := match cs with
    | '+' :: rest => rest
    | rest => rest
  match cs with
  | [] => none
  | _ =>
    match parseDigits dv radix 0 cs with
    | some n => if n < 2 ^ 64 then some n else none
    | none => none

/-- The parse-error kind of the section parsers (`io::ErrorKind::InvalidData`,
carrying the trimmed size text that failed to parse). -/
inductive ParseErr where
  | invalidData (size_str : List Char)
deriving DecidableEq, Repr

/-- Models `parse_size`: trims, then parses either `0x`-prefixed hexadecimal or
decimal; a failed numeric parse is an `InvalidData` error. -/
def parse_size (size_str : List Char) : Except ParseErr Nat :=
  let t := trimCh size_str
  let r := match stripPfxCh (("0x").data) t with
    | some hex => parseUnsignedRadix hexDigitVal? 16 hex
    | none => parseUnsignedRadix digitVal? 10 t
  match r with
  | some n => .ok n
  | none => .error (.invalidData t)

/-- Section description returned by the parsers (`SectionInfo` in
llvm_tools/mod.rs). -/
structure SectionInfo where
  size : Nat
  is_writable : Bool
deriving DecidableEq, Repr

/-- Outcome of processing one line of a report: keep scanning with a new
state, return successfully from inside the loop, or propagate a parse error
(the `?` operator in the source). -/
inductive StepRes (σ : Type) where
  | next (st : σ)
  | found (info : SectionInfo)
  | fail (e : ParseErr)

/-- The shared `for line in output.lines()` loop: `.ok none` when the scan
finishes without identifying the target section. -/
def runParse {σ : Type} (step : σ → List Char → StepRes σ) :
    List (List Char) → σ → Except ParseErr (Option SectionInfo)
  | [], _ => .ok none
  | l :: ls, st =>
    match step st l with
    | .next st' => runParse step ls st'
    | .found info => .ok (some info)
    | .fail e => .error e

/-- Per-block scan state of `parse_elf_sections`. -/
structure ElfState where
  in_target_section : Bool
  current_size : Option Nat
  current_is_writable : Bool
deriving DecidableEq, Repr

/-- One loop iteration of `parse_elf_sections`, in source order: `Name:`
tracking, `Size:` while in target, `SHF_WRITE` while in target, the closing
marker, and the per-block reset on `Section {`. -/
def elfStep (section_name : List Char) (st : ElfState) (line : List Char) :
    StepRes ElfState :=
  match extract_name (trimCh line) nameTag with
  | some name => .next { st with in_target_section := decide (name = section_name) }
  | none =>
    match (if st.in_target_section then stripPfxCh sizeTag (trimCh line) else none) with
    | some size_str =>
      match parse_size size_str with
      | .ok n => .next { st with current_size := some n }
      | .error e => .fail e
    | none =>
      if st.in_target_section && containsSub shfWriteTok (trimCh line) then
        .next { st with current_is_writable := true }
      else if trimCh line = closeBraceLine ∧ st.in_target_section then
        match st.current_size with
        | some size => .found ⟨size, st.current_is_writable⟩
        | none => .next st
      else if trimCh line = sectionOpenLine then
        .next ⟨false, none, false⟩
      else .next st

/-- Models `parse_elf_sections` on the lines of a report. -/
def parse_elf_sections (output : List (List Char)) (section_name : List Char) :
    Except ParseErr (Option SectionInfo) :=
  runParse (elfStep section_name) output ⟨false, none, false⟩

/-- Models `matches_macho_section`: the section name must match; a target
segment, when given, must match the most recently seen segment, and cannot be
confirmed when no segment has been seen. -/
def matches_macho_section (current_segment : Option (List Char)) (current_name : List Char)
    (target_segment : Option (List Char)) (target_section : List Char) : Bool :=
  if current_name ≠ target_section then false
  else
    match target_segment with
    | some target_seg =>
      match current_segment with
      | some current_seg => decide (current_seg = target_seg)
      | none => false
    | none => true

/-- First-comma split used on the Mach-O target name (`section_name.find(',')`). -/
def splitAtFirstComma : List Char → Option (List Char × List Char)
  | [] => none
  | c :: cs =>
    if c = ',' then some ([], cs)
    else
      match splitAtFirstComma cs with
      | some (a, b) => some (c :: a, b)
      | none => none

/-- The `(target_segment, target_section)` decomposition of a Mach-O target
name: `"segment,section"` or a bare section name. -/
def macho_target (section_name : List Char) : Option (List Char) × List Char :=
  match splitAtFirstComma section_name with
  | some (a, b) => (some a, b)
  | none => (none, section_name)

/-- Per-block scan state of `parse_macho_sections`. -/
structure MachoState where
  current_segment : Option (List Char)
  current_name : Option (List Char)
  in_target_section : Bool
  current_size : Option Nat
  current_is_writable : Bool
deriving DecidableEq, Repr

/-- One loop iteration of `parse_macho_sections`, in source order: `Segment:`
tracking (which sets writability from segment identity and re-checks the
match), `Name:` tracking, `Size:` while in target, the closing marker, and
the per-block reset. -/
def machoStep (target_segment : Option (List Char)) (target_section : List Char)
    (st : MachoState) (line : List Char) : StepRes MachoState :=
  match extract_name (trimCh line) segmentTag with
  | some seg =>
    .next (match st.current_name with
      | some name =>
        { st with current_segment := some seg,
                  current_is_writable := decide (seg = dataSegment),
                  in_target_section :=
                    matches_macho_section (some seg) name target_segment target_section }
      | none =>
        { st with current_segment := some seg,
                  current_is_writable := decide (seg = dataSegment) })
  | none =>
    match extract_name (trimCh line) nameTag with
    | some name =>
      .next { st with current_name := some name,
                      in_target_section :=
                        matches_macho_section st.current_segment name
                          target_segment target_section }
    | none =>
      match (if st.in_target_section then stripPfxCh sizeTag (trimCh line) else none) with
      | some size_str =>
        match parse_size size_str with
        | .ok n => .next { st with current_size := some n }
        | .error e => .fail e
      | none =>
        if trimCh line = closeBraceLine ∧ st.in_target_section then
          match st.current_size with
          | some size => .found ⟨size, st.current_is_writable⟩
          | none => .next st
        else if trimCh line = sectionOpenLine then
          .next ⟨none, none, false, none, false⟩
        else .next st

/-- Models `parse_macho_sections` on the lines of a report. -/
def parse_macho_sections (output : List (List Char)) (section_name : List Char) :
    Except ParseErr (Option SectionInfo) :=
  let t := macho_target section_name
  runParse (machoStep t.1 t.2) output ⟨none, none, false, none, false⟩

/-- Per-block scan state of `parse_coff_sections` (same shape as ELF). -/
structure CoffState where
  in_target_section : Bool
  current_size : Option Nat
  current_is_writable : Bool
deriving DecidableEq, Repr

/-- One loop iteration of `parse_coff_sections`: like ELF but with
`RawDataSize:` and `IMAGE_SCN_MEM_WRITE`. -/
def coffStep (section_name : List Char) (st : CoffState) (line : List Char) :
    StepRes CoffState :=
  match extract_name (trimCh line) nameTag with
  | some name => .next { st with in_target_section := decide (name = section_name) }
  | none =>
    match (if st.in_target_section then stripPfxCh rawDataSizeTag (trimCh line) else none) with
    | some size_str =>
      match parse_size size_str with
      | .ok n => .next { st with current_size := some n }
      | .error e => .fail e
    | none =>
      if st.in_target_section && containsSub imageScnMemWriteTok (trimCh line) then
        .next { st with current_is_writable := true }
      else if trimCh line = closeBraceLine ∧ st.in_target_section then
        match st.current_size with
        | some size => .found ⟨size, st.current_is_writable⟩
        | none => .next st
      else if trimCh line = sectionOpenLine then
        .next ⟨false, none, false⟩
      else .next st

/-- Models `parse_coff_sections` on the lines of a report. -/
def parse_coff_sections (output : List (List Char)) (section_name : List Char) :
    Except ParseErr (Option SectionInfo) :=
  runParse (coffStep section_name) output ⟨false, none, false⟩

/-- The object-file formats recognized by `BinaryFormat::detect`. -/
inductive BinaryFormat where
  | Elf
  | MachO
  | Coff
deriving DecidableEq, Repr

/-- Classification of a single line by the format detector: the line must
start with `Format:` and its trimmed, lowercased value must start with one of
the three known format names (checked in source order). -/
def formatOfLine (line : List Char) : Option BinaryFormat :=
  match stripPfxCh formatTag line with
  | some format_str =>
    let f := toLowerCh (trimCh format_str)
    if hasPfxCh (("elf").data) f then some .Elf
    else if hasPfxCh (("mach-o").data) f then some .MachO
    else if hasPfxCh (("coff").data) f then some .Coff
    else none
  | none => none

/-- The scan of `BinaryFormat::detect` over at most the first 5 lines. -/
def detectScan : List (List Char) → Option BinaryFormat
  | [] => none
  | l :: ls =>
    match formatOfLine l with
    | some f => some f
    | none => detectScan ls

/-- Models `BinaryFormat::detect` on the lines of a report: scans only the
first few (5) lines for a recognizable `Format:` line. -/
def detect (output : List (List Char)) : Option BinaryFormat :=
  detectScan (output.take 5)

/-! ## Section patcher (src/ver-stub-build/src/update_section.rs)

`UpdateSectionCommand::write_to` is I/O orchestration; its decision logic
(the `match section_info` at the heart of the function) is modelled as the
list of externally visible effects it performs, and file contents as a map
from paths to bytes. -/

/-- The warnings `write_to` can record via `cargo_warning`. -/
inductive WarnKind where
  | writableSection
  | sectionNotFound
deriving DecidableEq, Repr

/-- Externally visible effects of the patch step. -/
inductive PatchEffect where
  | warning (w : WarnKind)
  | update_section (bin out : List Char) (bytes : List Nat)
  | copy (src dst : List Char)
deriving DecidableEq, Repr

/-- Models the `match section_info` of `UpdateSectionCommand::write_to`:
with section info present, warn when writable and invoke the external section
editor with bytes rebuilt at the discovered section size; with the section
absent, warn and copy the input unmodified.  Either way the function returns
(success). -/
def write_to_plan (section_info : Option SectionInfo) (build_bytes : Nat → List Nat)
    (bin_path output_path : List Char) : List PatchEffect :=
  match section_info with
  | some info =>
    (if info.is_writable then [.warning .writableSection] else []) ++
    [.update_section bin_path output_path (build_bytes info.size)]
  | none => [.warning .sectionNotFound, .copy bin_path output_path]

/-- File contents by path. -/
def FileStore := List Char → List Nat

/-- Effect semantics over a file store: `copy` makes the destination
byte-identical to the source; the external editor is an uninterpreted function
`edit` of the input bytes and the new section bytes; warnings change no file. -/
def runPlan (edit : List Nat → List Nat → List Nat) (fs : FileStore) :
    List PatchEffect → FileStore
  | [] => fs
  | .warning _ :: rest => runPlan edit fs rest
  | .update_section bin out bytes :: rest =>
    runPlan edit (fun p => if p = out then edit (fs bin) bytes else fs p) rest
  | .copy src dst :: rest =>
    runPlan edit (fun p => if p = dst then fs src else fs p) rest

/-- Did this decode result panic? -/
def isPanicRes : Except Panic (Option (List Nat)) → Bool
  | .error _ => true
  | .ok _ => false

/-- Did a section parser successfully identify a section? -/
def returnsSome : Except ParseErr (Option SectionInfo) → Bool
  | .ok (some _) => true
  | .ok none => false
  | .error _ => false

end VerStub

section CodecSanity

open VerStub

example : get_idx_from_buffer 512 0 (List.replicate 512 0) = .ok none := by
  decide

example :
    get_idx_from_buffer 512 0
      ([1, 4, 0, 97, 115, 100, 102] ++ List.replicate 505 0) =
    .ok (some [97, 115, 100, 102]) := by
  decide

example :
    get_idx_from_buffer 512 1
      ([2, 4, 0, 0, 0, 97, 115, 100, 102] ++ List.replicate 503 0) =
    .error .invalidRange := by
  decide

example : get_idx_from_buffer 512 0 (List.replicate 512 255) = .error .endExceedsBuffer := by
  decide

example :
    get_idx_from_buffer 512 0 ([1, 2, 0, 255, 255] ++ List.replicate 507 0) =
    .error .invalidUtf8 := by
  decide

example :
    (build_section_buffer
        ([some [97, 115, 100, 102], none, some [106, 107, 108, 59],
          none, none, some [110, 97, 110, 97], none, none, none])
        512).map
      (fun buf => (List.range 9).map (fun i => get_idx_from_buffer 512 i buf)) =
    .ok [.ok (some [97, 115, 100, 102]), .ok none, .ok (some [106, 107, 108, 59]),
         .ok none, .ok none, .ok (some [110, 97, 110, 97]), .ok none, .ok none,
         .ok none] := by
  decide

end CodecSanity

section ParserSanity

open VerStub

example :
    parse_elf_sections
      ([("Section \x7b"), ("  Index: 16"), ("  Name: ver_stub (472)"),
        ("  Type: SHT_PROGBITS (0x1)"), ("  Flags [ (0x3)"), ("    SHF_ALLOC (0x2)"),
        ("    SHF_WRITE (0x1)"), ("  ]"), ("  Size: 512"), ("\x7d")].map String.data)
      (("ver_stub").data) =
    .ok (some ⟨512, true⟩) := by
  decide

example :
    parse_macho_sections
      ([("Section \x7b"), ("  Index: 0"), ("  Name: ver_stub (76 65 72)"),
        ("  Segment: __TEXT (5F 5F 54 45)"), ("  Size: 0x200"), ("\x7d")].map String.data)
      (("__TEXT,ver_stub").data) =
    .ok (some ⟨512, false⟩) := by
  decide

example :
    parse_macho_sections
      ([("Section \x7b"), ("  Name: ver_stub (76 65 72)"),
        ("  Segment: __DATA (5F 5F 44 41)"), ("  Size: 0x200"), ("\x7d")].map String.data)
      (("ver_stub").data) =
    .ok (some ⟨512, true⟩) := by
  decide

example :
    parse_coff_sections
      ([("Section \x7b"), ("  Number: 5"), ("  Name: ver_stub (76 65 72 5F)"),
        ("  RawDataSize: 512"), ("  Characteristics [ (0xC0000040)"),
        ("    IMAGE_SCN_MEM_WRITE (0x80000000)"), ("  ]"), ("\x7d")].map String.data)
      (("ver_stub").data) =
    .ok (some ⟨512, true⟩) := by
  decide

example :
    detect ([("File: a.out"), ("Format: elf64-x86-64"), ("Arch: x86_64")].map String.data) =
    some .Elf := by
  decide

example :
    detect ([("File: a.out"), ("Format: Mach-O 64-bit x86-64")].map String.data) =
    some .MachO := by
  decide

example :
    detect ([("File: a.exe"), ("Format: COFF-x86-64")].map String.data) = some .Coff := by
  decide

example :
    detect ([("a"), ("b"), ("c"), ("d"), ("e"), ("Format: elf64")].map String.data) = none := by
  decide

example : parse_size ((" 0x200").data) = .ok 512 := by decide

example : parse_size ((" banana").data) = .error (.invalidData (("banana").data)) := by decide

end ParserSanity

namespace VerStub

/-! ## Decoder lemmas -/

@[simp] theorem exceptOkBind {ε α β : Type} (a : α) (f : α → Except ε β) :
    (Except.ok a : Except ε α) >>= f = f a := rfl

@[simp] theorem exceptErrBind {ε α β : Type} (e : ε) (f : α → Except ε β) :
    (Except.error e : Except ε α) >>= f = Except.error e := rfl

@[simp] theorem exceptPureBind {ε α β : Type} (a : α) (f : α → Except ε β) :
    (pure a : Except ε α) >>= f = f a := rfl

@[simp] theorem exceptPureEqOk {ε α : Type} (a : α) :
    (pure a : Except ε α) = Except.ok a := rfl

theorem read_buffer_byte_lt {B offset : Nat} {buffer : List Nat} (h : offset < B) :
    read_buffer_byte B buffer offset = .ok (pureByte buffer offset) := by
  simp [read_buffer_byte, pureByte, h]

theorem read_buffer_byte_ge {B offset : Nat} {buffer : List Nat} (h : B ≤ offset) :
    read_buffer_byte B buffer offset = .error .outOfBounds := by
  simp [read_buffer_byte]
  omega

theorem read_buffer_u16_lt {B offset : Nat} {buffer : List Nat} (h : offset + 1 < B) :
    read_buffer_u16 B buffer offset = .ok (pureU16 buffer offset) := by
  have h0 : offset < B := by omega
  simp [read_buffer_u16, read_buffer_byte_lt h0, read_buffer_byte_lt h, pureU16]

/-- Transparent form of the decoder on any buffer whose header reads for
member `idx` are in bounds. -/
theorem get_idx_from_buffer_eq_of_inbounds
    (B idx : Nat) (buffer : List Nat)
    (h0 : 0 < pureByte buffer 0)
    (hidx : idx < pureByte buffer 0) (hin : 2 + idx * 2 < B) :
    get_idx_from_buffer B idx buffer =
      (if derivedStart buffer idx = derivedEnd buffer idx then .ok none
       else if derivedEnd buffer idx < derivedStart buffer idx then .error .invalidRange
       else if B < derivedEnd buffer idx then .error .endExceedsBuffer
       else if utf8Valid (sliceBytes buffer (derivedStart buffer idx) (derivedEnd buffer idx)) then
         .ok (some (sliceBytes buffer (derivedStart buffer idx) (derivedEnd buffer idx)))
       else .error .invalidUtf8) := by
  have hB : 0 < B := by omega
  have hend : (1 + idx * 2) + 1 < B := by omega
  have hne : ¬ (pureByte buffer 0 = 0) := by omega
  have hle : ¬ (pureByte buffer 0 ≤ idx) := by omega
  unfold get_idx_from_buffer
  rw [read_buffer_byte_lt hB, exceptOkBind]
  simp only [if_neg hne, if_neg hle]
  rw [read_buffer_u16_lt hend, exceptOkBind]
  by_cases hz : idx = 0
  · subst hz
    simp [derivedStart, derivedEnd, exceptPureEqOk]
  · have hprev : (1 + (idx - 1) * 2) + 1 < B := by omega
    simp only [if_neg hz]
    rw [read_buffer_u16_lt hprev, exceptOkBind, exceptPureBind]
    simp [derivedStart, derivedEnd, exceptPureEqOk, hz]

end VerStub

namespace VerStub

/-- When the header reads for member `idx` are out of bounds (possible only
when `B < 512` relative to a large stored member count), the decoder panics via
the assert in `read_buffer_byte`. -/
theorem get_idx_from_buffer_oob
    (B idx : Nat) (buffer : List Nat)
    (h0 : 0 < pureByte buffer 0) (hidx : idx < pureByte buffer 0)
    (hB : B ≤ 2 + idx * 2) :
    get_idx_from_buffer B idx buffer = .error .outOfBounds := by
  unfold get_idx_from_buffer
  by_cases hb0 : 0 < B
  · rw [read_buffer_byte_lt hb0, exceptOkBind]
    have hne : ¬ (pureByte buffer 0 = 0) := by omega
    have hle : ¬ (pureByte buffer 0 ≤ idx) := by omega
    simp only [if_neg hne, if_neg hle]
    unfold read_buffer_u16
    by_cases hf : 1 + idx * 2 < B
    · rw [read_buffer_byte_lt hf, exceptOkBind, read_buffer_byte_ge (by omega)]
      simp
    · rw [read_buffer_byte_ge (by omega)]
      simp
  · rw [read_buffer_byte_ge (by omega)]
    simp

/-- Absence for indices at or beyond the stored member count. -/
theorem get_idx_absent_of_count_le
    (B idx : Nat) (buffer : List Nat)
    (hB : 0 < B) (hle : pureByte buffer 0 ≤ idx) :
    get_idx_from_buffer B idx buffer = .ok none := by
  unfold get_idx_from_buffer
  rw [read_buffer_byte_lt hB, exceptOkBind]
  by_cases h0 : pureByte buffer 0 = 0
  · simp [h0]
  · simp [if_neg h0, if_pos hle]

end VerStub

namespace VerStub

/-- C3: for every buffer whose first byte (num_members) is `k`, decoding any
index `≥ k` returns absent — independently of the reading code's compiled
`COUNT`, which the decoder never consults — and in particular every index of
the all-zero buffer decodes as absent. -/
theorem decode_forward_compat_absent :
    (∀ (B : Nat) (buffer : List Nat) (k idx : Nat),
        buffer.length = B → 0 < B → pureByte buffer 0 = k → k ≤ idx →
        get_idx_from_buffer B idx buffer = .ok none) ∧
    (∀ (B idx : Nat), 0 < B →
        get_idx_from_buffer B idx (List.replicate B 0) = .ok none) := by
  constructor
  · intro B buffer k idx _ hB hk hle
    exact get_idx_absent_of_count_le B idx buffer hB (hk ▸ hle)
  · intro B idx hB
    refine get_idx_absent_of_count_le B idx _ hB ?_
    have : pureByte (List.replicate B 0) 0 = 0 := by
      cases B with
      | zero => simp [pureByte]
      | succ n => simp [pureByte, List.replicate_succ]
    omega

/-- Witness for C3 at concrete inputs: a buffer declaring 3 members decodes
index 7 as absent, and the all-zero buffer decodes index 0 as absent. -/
theorem decode_forward_compat_absent_witness :
    get_idx_from_buffer 512 7 ([3, 4, 0, 4, 0, 4, 0] ++ List.replicate 505 0) = .ok none ∧
    get_idx_from_buffer 512 0 (List.replicate 512 0) = .ok none :=
  ⟨decode_forward_compat_absent.1 512 ([3, 4, 0, 4, 0, 4, 0] ++ List.replicate 505 0) 3 7
      (by decide) (by decide) (by decide) (by decide),
   decode_forward_compat_absent.2 512 0 (by decide)⟩

end VerStub

namespace VerStub

/-- C2: for every buffer with num_members byte `k > 0` and index `i < k`, the
decoder panics when the derived end is below the derived start; when the range
is non-degenerate and the end exceeds the buffer size; and when the range is
non-degenerate, in bounds, and not valid UTF-8 — never returning a value in
those cases.  Conversely (given in-bounds header reads) it does not panic when
none of the corruption conditions holds. -/
theorem decode_panics_on_corruption :
    ∀ (B : Nat) (buffer : List Nat) (k idx : Nat),
      buffer.length = B → pureByte buffer 0 = k → 0 < k → idx < k →
      ((derivedEnd buffer idx < derivedStart buffer idx →
          isPanicRes (get_idx_from_buffer B idx buffer) = true) ∧
       (derivedStart buffer idx ≠ derivedEnd buffer idx → B < derivedEnd buffer idx →
          isPanicRes (get_idx_from_buffer B idx buffer) = true) ∧
       (derivedStart buffer idx ≠ derivedEnd buffer idx →
        derivedStart buffer idx ≤ derivedEnd buffer idx → derivedEnd buffer idx ≤ B →
        utf8Valid (sliceBytes buffer (derivedStart buffer idx) (derivedEnd buffer idx)) = false →
          isPanicRes (get_idx_from_buffer B idx buffer) = true) ∧
       (2 + idx * 2 < B →
        ¬ derivedEnd buffer idx < derivedStart buffer idx →
        ¬ (derivedStart buffer idx ≠ derivedEnd buffer idx ∧ B < derivedEnd buffer idx) →
        ¬ (derivedStart buffer idx ≠ derivedEnd buffer idx ∧
           utf8Valid (sliceBytes buffer (derivedStart buffer idx) (derivedEnd buffer idx)) = false) →
          isPanicRes (get_idx_from_buffer B idx buffer) = false)) := by
  intro B buffer k idx hlen hk h0 hidx
  subst hk
  by_cases hin : 2 + idx * 2 < B
  · have key := get_idx_from_buffer_eq_of_inbounds B idx buffer h0 hidx hin
    refine ⟨?_, ?_, ?_, ?_⟩
    · intro h
      have hne : ¬ (derivedStart buffer idx = derivedEnd buffer idx) := by omega
      rw [key, if_neg hne, if_pos h]
      rfl
    · intro hne hgt
      rw [key, if_neg hne]
      by_cases hlt : derivedEnd buffer idx < derivedStart buffer idx
      · rw [if_pos hlt]; rfl
      · rw [if_neg hlt, if_pos hgt]; rfl
    · intro hne hle hinb hutf
      have hne2 : ¬ (derivedStart buffer idx = derivedEnd buffer idx) := hne
      have hlt : ¬ (derivedEnd buffer idx < derivedStart buffer idx) := by omega
      have hgt : ¬ (B < derivedEnd buffer idx) := by omega
      rw [key, if_neg hne2, if_neg hlt, if_neg hgt, if_neg (by simp [hutf])]
      rfl
    · intro _ hlt hgt hutf
      rw [key]
      by_cases heq : derivedStart buffer idx = derivedEnd buffer idx
      · rw [if_pos heq]; rfl
      · have h1 : ¬ (derivedEnd buffer idx < derivedStart buffer idx) := hlt
        have h2 : ¬ (B < derivedEnd buffer idx) := fun hh => hgt ⟨heq, hh⟩
        have h3 : utf8Valid (sliceBytes buffer (derivedStart buffer idx)
            (derivedEnd buffer idx)) = true := by
          rcases Bool.eq_false_or_eq_true (utf8Valid (sliceBytes buffer
              (derivedStart buffer idx) (derivedEnd buffer idx))) with ht | hf
          · exact ht
          · exact absurd ⟨heq, hf⟩ hutf
        rw [if_neg heq, if_neg h1, if_neg h2, if_pos h3]
        rfl
  · have key := get_idx_from_buffer_oob B idx buffer h0 hidx (by omega)
    refine ⟨fun _ => by rw [key]; rfl, fun _ _ => by rw [key]; rfl,
            fun _ _ _ _ => by rw [key]; rfl, fun hc => absurd hc hin⟩

/-- Witness for C2 at a concrete corrupted buffer (the `test_invalid_range`
fixture of the source): member 1 has derived end 5 below derived start 9, and
decoding panics. -/
theorem decode_panics_on_corruption_witness :
    derivedEnd ([2, 4, 0, 0, 0, 97, 115, 100, 102] ++ List.replicate 503 0) 1 <
      derivedStart ([2, 4, 0, 0, 0, 97, 115, 100, 102] ++ List.replicate 503 0) 1 ∧
    isPanicRes (get_idx_from_buffer 512 1
      ([2, 4, 0, 0, 0, 97, 115, 100, 102] ++ List.replicate 503 0)) = true :=
  ⟨by decide,
   (decode_panics_on_corruption 512 ([2, 4, 0, 0, 0, 97, 115, 100, 102] ++
      List.replicate 503 0) 2 1 (by decide) (by decide) (by decide) (by decide)).1
     (by decide)⟩

/-- C10: when the derived start equals the derived end, the decoder returns
absent before the end-bounds check or UTF-8 validation runs — even when the
common offset lies beyond the buffer size. -/
theorem decode_equal_offsets_short_circuit :
    ∀ (B : Nat) (buffer : List Nat) (k idx : Nat),
      buffer.length = B → pureByte buffer 0 = k → 0 < k → idx < k →
      2 + idx * 2 < B →
      derivedStart buffer idx = derivedEnd buffer idx →
      get_idx_from_buffer B idx buffer = .ok none := by
  intro B buffer k idx hlen hk h0 hidx hin heq
  subst hk
  rw [get_idx_from_buffer_eq_of_inbounds B idx buffer h0 hidx hin, if_pos heq]

/-- Witness for C10 at a concrete buffer whose equal stored offsets place the
common position 65540 far beyond the buffer size 512: decode still returns
absent rather than failing. -/
theorem decode_equal_offsets_short_circuit_witness :
    512 < derivedEnd ([2, 255, 255, 255, 255] ++ List.replicate 507 0) 1 ∧
    derivedStart ([2, 255, 255, 255, 255] ++ List.replicate 507 0) 1 =
      derivedEnd ([2, 255, 255, 255, 255] ++ List.replicate 507 0) 1 ∧
    get_idx_from_buffer 512 1 ([2, 255, 255, 255, 255] ++ List.replicate 507 0) = .ok none :=
  ⟨by decide, by decide,
   decode_equal_offsets_short_circuit 512 ([2, 255, 255, 255, 255] ++ List.replicate 507 0)
     2 1 (by decide) (by decide) (by decide) (by decide) (by decide) (by decide)⟩

end VerStub

namespace VerStub

/-! ## Encoder lemmas -/

theorem writeBytes_ok {buf data : List Nat} {start : Nat}
    (h : start + data.length ≤ buf.length) :
    writeBytes buf start data =
      .ok (buf.take start ++ data ++ buf.drop (start + data.length)) := by
  simp [writeBytes, h]

theorem writeBytes_err {buf data : List Nat} {start : Nat}
    (h : buf.length < start + data.length) :
    writeBytes buf start data = .error .indexOutOfBounds := by
  rw [writeBytes, if_neg (by omega)]

theorem write_region_length {buf data : List Nat} {start : Nat}
    (h : start + data.length ≤ buf.length) :
    (buf.take start ++ data ++ buf.drop (start + data.length)).length = buf.length := by
  simp only [List.length_append, List.length_take, List.length_drop]
  omega

theorem setByte_ok {buf : List Nat} {i v : Nat} (h : i < buf.length) :
    setByte buf i v = .ok (buf.set i v) := by
  simp [setByte, h]

theorem totalLen_cons (d : Option (List Nat)) (rest : List (Option (List Nat))) :
    totalLen (d :: rest) = optLen d + totalLen rest := rfl

/-- The walk succeeds, preserving the buffer length, whenever the header and
all present payloads fit. -/
theorem build_loop_ok (B : Nat) :
    ∀ (md : List (Option (List Nat))) (idx relOff : Nat) (buf : List Nat),
      buf.length = B → idx + md.length ≤ 9 → 19 ≤ B →
      19 + relOff + totalLen md ≤ B →
      ∃ out, build_loop B md idx relOff buf = .ok out ∧ out.length = B := by
  intro md
  induction md with
  | nil =>
    intro idx relOff buf hlen _ _ _
    exact ⟨buf, rfl, hlen⟩
  | cons d rest ih =>
    intro idx relOff buf hlen hidx hB hcap
    have hidx8 : idx ≤ 8 := by
      have := hidx
      simp only [List.length_cons] at this
      omega
    cases d with
    | none =>
      rw [build_loop]
      have hw : (1 + idx * 2) + ([relOff % 256, relOff / 256 % 256] : List Nat).length ≤
          buf.length := by
        simp only [List.length_cons, List.length_nil]
        omega
      simp only [exceptPureBind, writeBytes_ok hw, exceptOkBind]
      refine ih (idx + 1) relOff _ ?_ ?_ hB ?_
      · rw [write_region_length hw, hlen]
      · simp only [List.length_cons] at hidx ⊢
        omega
      · rw [totalLen_cons] at hcap
        simp only [optLen] at hcap
        omega
    | some s =>
      rw [build_loop]
      have htot : 19 + relOff + s.length + totalLen rest ≤ B := by
        rw [totalLen_cons] at hcap
        simp only [optLen] at hcap
        omega
      have hnc : ¬ (B < header_size memberCount + relOff + s.length) := by
        simp only [header_size, memberCount]
        omega
      rw [if_neg hnc]
      have hd : (header_size memberCount + relOff) + s.length ≤ buf.length := by
        simp only [header_size, memberCount]
        omega
      simp only [writeBytes_ok hd, exceptOkBind, exceptPureBind]
      have hlen1 : (buf.take (header_size memberCount + relOff) ++ s ++
          buf.drop (header_size memberCount + relOff + s.length)).length = B := by
        rw [write_region_length hd, hlen]
      have hw : (1 + idx * 2) + ([(relOff + s.length) % 256,
          (relOff + s.length) / 256 % 256] : List Nat).length ≤
          (buf.take (header_size memberCount + relOff) ++ s ++
            buf.drop (header_size memberCount + relOff + s.length)).length := by
        simp only [List.length_cons, List.length_nil, hlen1]
        omega
      simp only [writeBytes_ok hw, exceptOkBind]
      refine ih (idx + 1) (relOff + s.length) _ ?_ ?_ hB ?_
      · rw [write_region_length hw, hlen1]
      · simp only [List.length_cons] at hidx ⊢
        omega
      · omega

end VerStub

namespace VerStub

/-- When the headers fit but the payload does not, the walk fails with the
capacity panic, whose recorded end position exceeds the buffer size. -/
theorem build_loop_capacity (B : Nat) :
    ∀ (md : List (Option (List Nat))) (idx relOff : Nat) (buf : List Nat),
      buf.length = B → idx + md.length ≤ 9 → 19 ≤ B → 19 + relOff ≤ B →
      B < 19 + relOff + totalLen md →
      ∃ a, build_loop B md idx relOff buf = .error (.capacity a B) ∧ B < a := by
  intro md
  induction md with
  | nil =>
    intro idx relOff buf _ _ _ hro hcap
    simp only [totalLen] at hcap
    omega
  | cons d rest ih =>
    intro idx relOff buf hlen hidx hB hro hcap
    have hidx8 : idx ≤ 8 := by
      simp only [List.length_cons] at hidx
      omega
    cases d with
    | none =>
      rw [build_loop]
      have hw : (1 + idx * 2) + ([relOff % 256, relOff / 256 % 256] : List Nat).length ≤
          buf.length := by
        simp only [List.length_cons, List.length_nil]
        omega
      simp only [exceptPureBind, writeBytes_ok hw, exceptOkBind]
      refine ih (idx + 1) relOff _ ?_ ?_ hB hro ?_
      · rw [write_region_length hw, hlen]
      · simp only [List.length_cons] at hidx ⊢
        omega
      · rw [totalLen_cons] at hcap
        simp only [optLen] at hcap
        omega
    | some s =>
      rw [build_loop]
      rw [totalLen_cons] at hcap
      simp only [optLen] at hcap
      by_cases hfit : B < header_size memberCount + relOff + s.length
      · rw [if_pos hfit]
        exact ⟨header_size memberCount + relOff + s.length, rfl, hfit⟩
      · rw [if_neg hfit]
        have hd : (header_size memberCount + relOff) + s.length ≤ buf.length := by
          simp only [header_size, memberCount] at hfit ⊢
          omega
        simp only [writeBytes_ok hd, exceptOkBind, exceptPureBind]
        have hlen1 : (buf.take (header_size memberCount + relOff) ++ s ++
            buf.drop (header_size memberCount + relOff + s.length)).length = B := by
          rw [write_region_length hd, hlen]
        have hw : (1 + idx * 2) + ([(relOff + s.length) % 256,
            (relOff + s.length) / 256 % 256] : List Nat).length ≤
            (buf.take (header_size memberCount + relOff) ++ s ++
              buf.drop (header_size memberCount + relOff + s.length)).length := by
          simp only [List.length_cons, List.length_nil, hlen1]
          omega
        simp only [writeBytes_ok hw, exceptOkBind]
        refine ih (idx + 1) (relOff + s.length) _ ?_ ?_ hB ?_ ?_
        · rw [write_region_length hw, hlen1]
        · simp only [List.length_cons] at hidx ⊢
          omega
        · simp only [header_size, memberCount] at hfit
          omega
        · omega

/-- When even the header region does not fit, the walk fails (with either the
capacity panic or an out-of-bounds write panic). -/
theorem build_loop_hdr_oob (B : Nat) :
    ∀ (md : List (Option (List Nat))) (idx relOff : Nat) (buf : List Nat),
      md ≠ [] → buf.length = B → B < 1 + 2 * (idx + md.length) →
      ∃ e, build_loop B md idx relOff buf = .error e := by
  intro md
  induction md with
  | nil => intro idx relOff buf hne _ _; exact absurd rfl hne
  | cons d rest ih =>
    intro idx relOff buf _ hlen hsmall
    simp only [List.length_cons] at hsmall
    cases d with
    | none =>
      rw [build_loop]
      by_cases hw : (1 + idx * 2) + 2 ≤ B
      · have hw' : (1 + idx * 2) + ([relOff % 256, relOff / 256 % 256] : List Nat).length ≤
            buf.length := by
          simp only [List.length_cons, List.length_nil]
          omega
        simp only [exceptPureBind, writeBytes_ok hw', exceptOkBind]
        have hrest : rest ≠ [] := by
          intro hnil
          subst hnil
          simp only [List.length_nil] at hsmall
          omega
        refine ih (idx + 1) relOff _ hrest ?_ ?_
        · rw [write_region_length hw', hlen]
        · cases rest with
          | nil => exact absurd rfl hrest
          | cons e es => simp only [List.length_cons] at hsmall ⊢; omega
      · have hw' : buf.length < (1 + idx * 2) +
            ([relOff % 256, relOff / 256 % 256] : List Nat).length := by
          simp only [List.length_cons, List.length_nil]
          omega
        simp only [exceptPureBind, writeBytes_err hw', exceptErrBind]
        exact ⟨_, rfl⟩
    | some s =>
      rw [build_loop]
      by_cases hfit : B < header_size memberCount + relOff + s.length
      · rw [if_pos hfit]
        exact ⟨_, rfl⟩
      · rw [if_neg hfit]
        have hd : (header_size memberCount + relOff) + s.length ≤ buf.length := by
          simp only [header_size, memberCount] at hfit ⊢
          omega
        simp only [writeBytes_ok hd, exceptOkBind, exceptPureBind]
        have hlen1 : (buf.take (header_size memberCount + relOff) ++ s ++
            buf.drop (header_size memberCount + relOff + s.length)).length = B := by
          rw [write_region_length hd, hlen]
        by_cases hw : (1 + idx * 2) + 2 ≤ B
        · have hw' : (1 + idx * 2) + ([(relOff + s.length) % 256,
              (relOff + s.length) / 256 % 256] : List Nat).length ≤
              (buf.take (header_size memberCount + relOff) ++ s ++
                buf.drop (header_size memberCount + relOff + s.length)).length := by
            simp only [List.length_cons, List.length_nil, hlen1]
            omega
          simp only [writeBytes_ok hw', exceptOkBind]
          have hrest : rest ≠ [] := by
            intro hnil
            subst hnil
            simp only [List.length_nil] at hsmall
            omega
          refine ih (idx + 1) (relOff + s.length) _ hrest ?_ ?_
          · rw [write_region_length hw', hlen1]
          · cases rest with
            | nil => exact absurd rfl hrest
            | cons e es => simp only [List.length_cons] at hsmall ⊢; omega
        · have hw' : (buf.take (header_size memberCount + relOff) ++ s ++
              buf.drop (header_size memberCount + relOff + s.length)).length <
              (1 + idx * 2) + ([(relOff + s.length) % 256,
                (relOff + s.length) / 256 % 256] : List Nat).length := by
            simp only [List.length_cons, List.length_nil, hlen1]
            omega
          simp only [writeBytes_err hw', exceptErrBind]
          exact ⟨_, rfl⟩

end VerStub

namespace VerStub

/-! ## Arithmetic and list helpers for the round-trip proof -/

theorem lor_shiftLeft_eq_add {a : Nat} (b : Nat) (h : a < 256) :
    a ||| (b <<< 8) = a + 256 * b := by
  apply Nat.eq_of_testBit_eq
  intro i
  rw [Nat.testBit_lor, Nat.testBit_shiftLeft]
  by_cases hi : i < 8
  · have h8 : ¬ (8 ≤ i) := by omega
    simp only [h8, decide_False, Bool.false_and, Bool.or_false]
    have hm : (a + 256 * b) % 2 ^ 8 = a := by
      have h2 : (2:Nat) ^ 8 = 256 := by norm_num
      rw [h2]
      omega
    have ht := Nat.testBit_mod_two_pow (a + 256 * b) 8 i
    rw [hm] at ht
    rw [ht]
    simp [hi]
  · have h8 : 8 ≤ i := by omega
    have ha : a.testBit i = false := by
      apply Nat.testBit_eq_false_of_lt
      calc a < 256 := h
        _ ≤ 2 ^ i := by
          have h2 : (256 : Nat) = 2 ^ 8 := by norm_num
          rw [h2]
          exact Nat.pow_le_pow_right (by norm_num) h8
    rw [ha]
    simp only [h8, decide_True, Bool.true_and, Bool.false_or]
    have hd : (a + 256 * b) >>> 8 = b := by
      rw [Nat.shiftRight_eq_div_pow]
      have h2 : (2:Nat) ^ 8 = 256 := by norm_num
      rw [h2]
      omega
    have ht : ((a + 256 * b) >>> 8).testBit (i - 8) = (a + 256 * b).testBit (8 + (i - 8)) :=
      Nat.testBit_shiftRight _
    rw [hd] at ht
    rw [ht]
    congr 1
    omega

theorem get?_replicate (v : Nat) : ∀ (n m : Nat),
    (List.replicate n v).get? m = if m < n then some v else none := by
  intro n
  induction n with
  | zero => intro m; simp
  | succ k ih =>
    intro m
    cases m with
    | zero => simp [List.replicate_succ]
    | succ j =>
      rw [List.replicate_succ]
      simp only [List.get?]
      rw [ih j]
      by_cases hj : j < k
      · rw [if_pos hj, if_pos (by omega)]
      · rw [if_neg hj, if_neg (by omega)]

/-- Pointwise description of a contiguous slice overwrite. -/
theorem write_region_get? {buf data : List Nat} {start : Nat}
    (h : start + data.length ≤ buf.length) (pos : Nat) :
    (buf.take start ++ data ++ buf.drop (start + data.length)).get? pos =
      if start ≤ pos ∧ pos < start + data.length then data.get? (pos - start)
      else buf.get? pos := by
  have hL : (buf.take start).length = start := by
    rw [List.length_take]
    omega
  by_cases h1 : pos < start
  · rw [if_neg (by omega)]
    rw [List.get?_append (by rw [List.length_append, hL]; omega)]
    rw [List.get?_append (by rw [hL]; omega)]
    exact List.get?_take h1
  · by_cases h2 : pos < start + data.length
    · rw [if_pos ⟨by omega, h2⟩]
      rw [List.get?_append (by rw [List.length_append, hL]; omega)]
      rw [List.get?_append_right (by rw [hL]; omega)]
      rw [hL]
    · rw [if_neg (by omega)]
      rw [List.get?_append_right (by rw [List.length_append, hL]; omega)]
      rw [List.get?_drop]
      congr 1
      rw [List.length_append, hL]
      omega

theorem prevCum_zero (md : List (Option (List Nat))) : prevCum md 0 = 0 := by
  cases md <;> rfl

theorem prevCum_nil : ∀ (i : Nat), prevCum [] i = 0 := by
  intro i
  cases i <;> rfl

theorem prevCum_cons_succ (d : Option (List Nat)) (rest : List (Option (List Nat))) (i : Nat) :
    prevCum (d :: rest) (i + 1) = optLen d + prevCum rest i := rfl

theorem prevCum_le_totalLen (md : List (Option (List Nat))) : ∀ (i : Nat),
    prevCum md i ≤ totalLen md := by
  induction md with
  | nil => intro i; rw [prevCum_nil]; exact Nat.zero_le _
  | cons d rest ih =>
    intro i
    cases i with
    | zero => rw [prevCum_zero]; exact Nat.zero_le _
    | succ j =>
      rw [prevCum_cons_succ, totalLen_cons]
      exact Nat.add_le_add_left (ih j) _

theorem payloadBytes_length (md : List (Option (List Nat))) :
    (payloadBytes md).length = totalLen md := by
  induction md with
  | nil => rfl
  | cons d rest ih =>
    cases d with
    | some s => simp [payloadBytes, totalLen_cons, optLen, ih]
    | none => simp [payloadBytes, totalLen_cons, optLen, ih]

theorem prevCum_succ_get?_some {md : List (Option (List Nat))} {s : List Nat} :
    ∀ {i : Nat}, md.get? i = some (some s) →
      prevCum md (i + 1) = prevCum md i + s.length := by
  induction md with
  | nil => intro i h; simp at h
  | cons d rest ih =>
    intro i h
    cases i with
    | zero =>
      simp only [List.get?] at h
      cases h
      simp [prevCum_cons_succ, prevCum_zero, optLen]
    | succ j =>
      simp only [List.get?] at h
      rw [prevCum_cons_succ, prevCum_cons_succ, ih h]
      omega

theorem prevCum_succ_get?_none {md : List (Option (List Nat))} :
    ∀ {i : Nat}, md.get? i = some none →
      prevCum md (i + 1) = prevCum md i := by
  induction md with
  | nil => intro i h; simp at h
  | cons d rest ih =>
    intro i h
    cases i with
    | zero =>
      simp only [List.get?] at h
      cases h
      simp [prevCum_cons_succ, prevCum_zero, optLen]
    | succ j =>
      simp only [List.get?] at h
      rw [prevCum_cons_succ, prevCum_cons_succ, ih h]

theorem payload_get?_of_member {s : List Nat} :
    ∀ (md : List (Option (List Nat))) (i : Nat), md.get? i = some (some s) →
      ∀ (j : Nat), j < s.length →
        (payloadBytes md).get? (prevCum md i + j) = s.get? j := by
  intro md
  induction md with
  | nil => intro i h; simp at h
  | cons d rest ih =>
    intro i h j hj
    cases i with
    | zero =>
      simp only [List.get?] at h
      cases h
      rw [prevCum_zero]
      simp only [payloadBytes, Nat.zero_add]
      exact List.get?_append hj
    | succ k =>
      simp only [List.get?] at h
      rw [prevCum_cons_succ]
      cases d with
      | some t =>
        simp only [payloadBytes, optLen]
        rw [Nat.add_assoc]
        rw [List.get?_append_right (by omega)]
        rw [show t.length + (prevCum rest k + j) - t.length = prevCum rest k + j by omega]
        exact ih k h j hj
      | none =>
        simp only [payloadBytes, optLen, Nat.zero_add]
        exact ih k h j hj

end VerStub

namespace VerStub

theorem hdrByte_cons_lt_two (d : Option (List Nat)) (rest : List (Option (List Nat)))
    (relOff j : Nat) (h : j < 2) :
    hdrByte (d :: rest) relOff j =
      if j = 0 then (relOff + optLen d) % 256 else (relOff + optLen d) / 256 % 256 := by
  have hj : j / 2 = 0 := by omega
  unfold hdrByte
  rw [hj, prevCum_cons_succ, prevCum_zero, Nat.add_zero]
  interval_cases j
  · rfl
  · rfl

theorem hdrByte_cons_ge_two (d : Option (List Nat)) (rest : List (Option (List Nat)))
    (relOff j : Nat) (h : 2 ≤ j) :
    hdrByte (d :: rest) relOff j = hdrByte rest (relOff + optLen d) (j - 2) := by
  unfold hdrByte
  have hdiv : j / 2 = (j - 2) / 2 + 1 := by omega
  have hmod : j % 2 = (j - 2) % 2 := by omega
  rw [hdiv, hmod, prevCum_cons_succ]
  simp only [← Nat.add_assoc]

end VerStub

namespace VerStub

/-- Pointwise description of the buffer produced by the encoder walk: the
offset table occupies bytes `1 + idx*2 ..< 19`, the payload sits at
`19 + relOff ..< 19 + relOff + totalLen md`, and every other byte is taken
from the incoming buffer. -/
theorem build_loop_get? (B : Nat) :
    ∀ (md : List (Option (List Nat))) (idx relOff : Nat) (buf : List Nat),
      buf.length = B → idx + md.length = 9 → 19 ≤ B →
      19 + relOff + totalLen md ≤ B →
      ∃ out, build_loop B md idx relOff buf = .ok out ∧ out.length = B ∧
        ∀ pos : Nat,
          out.get? pos =
            if 1 + idx * 2 ≤ pos ∧ pos < 1 + (idx + md.length) * 2 then
              some (hdrByte md relOff (pos - (1 + idx * 2)))
            else if 19 + relOff ≤ pos ∧ pos < 19 + relOff + totalLen md then
              (payloadBytes md).get? (pos - (19 + relOff))
            else buf.get? pos := by
  intro md
  induction md with
  | nil =>
    intro idx relOff buf hlen hidx hB hcap
    refine ⟨buf, rfl, hlen, fun pos => ?_⟩
    have h1 : ¬ (1 + idx * 2 ≤ pos ∧
        pos < 1 + (idx + ([] : List (Option (List Nat))).length) * 2) := by
      simp only [List.length_nil]
      omega
    have h2 : ¬ (19 + relOff ≤ pos ∧
        pos < 19 + relOff + totalLen ([] : List (Option (List Nat)))) := by
      simp only [totalLen]
      omega
    rw [if_neg h1, if_neg h2]
  | cons d rest ih =>
    intro idx relOff buf hlen hidx hB hcap
    simp only [List.length_cons] at hidx
    rw [totalLen_cons] at hcap
    have hidx8 : idx ≤ 8 := by omega
    have hLc : (d :: rest : List (Option (List Nat))).length = rest.length + 1 := rfl
    have hTc : totalLen (d :: rest) = optLen d + totalLen rest := totalLen_cons d rest
    cases d with
    | none =>
      simp only [optLen] at hcap hTc
      rw [build_loop]
      have hw : (1 + idx * 2) + ([relOff % 256, relOff / 256 % 256] : List Nat).length ≤
          buf.length := by
        simp only [List.length_cons, List.length_nil]
        omega
      simp only [exceptPureBind, writeBytes_ok hw, exceptOkBind]
      obtain ⟨out, hout, houtlen, hdesc⟩ := ih (idx + 1) relOff
        (buf.take (1 + idx * 2) ++ [relOff % 256, relOff / 256 % 256] ++
          buf.drop ((1 + idx * 2) + ([relOff % 256, relOff / 256 % 256] : List Nat).length))
        (by rw [write_region_length hw, hlen]) (by omega) hB (by omega)
      refine ⟨out, hout, houtlen, fun pos => ?_⟩
      rw [hdesc pos]
      have hdl : ([relOff % 256, relOff / 256 % 256] : List Nat).length = 2 := rfl
      by_cases h1 : pos < 1 + idx * 2
      · rw [if_neg (by omega), if_neg (by omega),
          write_region_get? hw pos, if_neg (by rw [hdl]; omega),
          if_neg (by rw [hLc]; omega), if_neg (by rw [hTc]; omega)]
      · by_cases h2 : pos < (1 + idx * 2) + 2
        · rw [if_neg (by omega), if_neg (by omega),
            write_region_get? hw pos, if_pos ⟨by omega, by rw [hdl]; omega⟩,
            if_pos ⟨by omega, by rw [hLc]; omega⟩]
          have hδ : pos - (1 + idx * 2) = 0 ∨ pos - (1 + idx * 2) = 1 := by omega
          rcases hδ with hδ | hδ <;>
            rw [hδ, hdrByte_cons_lt_two _ _ _ _ (by omega)] <;>
            simp [optLen]
        · by_cases h3 : pos < 1 + (idx + (rest.length + 1)) * 2
          · rw [if_pos ⟨by omega, by omega⟩, if_pos ⟨by omega, by rw [hLc]; omega⟩,
              hdrByte_cons_ge_two _ _ _ _ (by omega)]
            have hi1 : pos - (1 + idx * 2) - 2 = pos - (1 + (idx + 1) * 2) := by omega
            simp only [optLen, Nat.add_zero, hi1]
          · by_cases h4 : 19 + relOff ≤ pos ∧ pos < 19 + relOff + totalLen rest
            · rw [if_neg (by omega), if_pos h4, if_neg (by rw [hLc]; omega),
                if_pos (by rw [hTc]; exact ⟨h4.1, by omega⟩)]
              rfl
            · rw [if_neg (by omega), if_neg h4,
                write_region_get? hw pos, if_neg (by rw [hdl]; omega),
                if_neg (by rw [hLc]; omega), if_neg (by rw [hTc]; omega)]
    | some s =>
      simp only [optLen] at hcap hTc
      rw [build_loop]
      have hnc : ¬ (B < header_size memberCount + relOff + s.length) := by
        simp only [header_size, memberCount]
        omega
      rw [if_neg hnc]
      have hhs : header_size memberCount = 19 := rfl
      have hd : (header_size memberCount + relOff) + s.length ≤ buf.length := by
        rw [hhs, hlen]
        omega
      simp only [writeBytes_ok hd, exceptOkBind, exceptPureBind]
      have hlen1 : (buf.take (header_size memberCount + relOff) ++ s ++
          buf.drop (header_size memberCount + relOff + s.length)).length = B := by
        rw [write_region_length hd, hlen]
      have hw : (1 + idx * 2) + ([(relOff + s.length) % 256,
          (relOff + s.length) / 256 % 256] : List Nat).length ≤
          (buf.take (header_size memberCount + relOff) ++ s ++
            buf.drop (header_size memberCount + relOff + s.length)).length := by
        simp only [List.length_cons, List.length_nil, hlen1]
        omega
      simp only [writeBytes_ok hw, exceptOkBind]
      obtain ⟨out, hout, houtlen, hdesc⟩ := ih (idx + 1) (relOff + s.length) _
        (by rw [write_region_length hw, hlen1]) (by omega) hB (by omega)
      refine ⟨out, hout, houtlen, fun pos => ?_⟩
      rw [hdesc pos]
      have hdl : ([(relOff + s.length) % 256,
          (relOff + s.length) / 256 % 256] : List Nat).length = 2 := rfl
      have hpayl : payloadBytes (some s :: rest) = s ++ payloadBytes rest := rfl
      by_cases h1 : pos < 1 + idx * 2
      · rw [if_neg (by omega), if_neg (by omega),
          write_region_get? hw pos, if_neg (by rw [hdl]; omega),
          write_region_get? hd pos, if_neg (by rw [hhs]; omega),
          if_neg (by rw [hLc]; omega), if_neg (by rw [hTc]; omega)]
      · by_cases h2 : pos < (1 + idx * 2) + 2
        · rw [if_neg (by omega), if_neg (by omega),
            write_region_get? hw pos, if_pos ⟨by omega, by rw [hdl]; omega⟩,
            if_pos ⟨by omega, by rw [hLc]; omega⟩]
          have hδ : pos - (1 + idx * 2) = 0 ∨ pos - (1 + idx * 2) = 1 := by omega
          rcases hδ with hδ | hδ <;>
            rw [hδ, hdrByte_cons_lt_two _ _ _ _ (by omega)] <;>
            simp [optLen]
        · by_cases h3 : pos < 1 + (idx + (rest.length + 1)) * 2
          · rw [if_pos ⟨by omega, by omega⟩, if_pos ⟨by omega, by rw [hLc]; omega⟩,
              hdrByte_cons_ge_two _ _ _ _ (by omega)]
            have hi1 : pos - (1 + idx * 2) - 2 = pos - (1 + (idx + 1) * 2) := by omega
            simp only [optLen, hi1]
          · by_cases h4 : 19 + relOff ≤ pos ∧ pos < 19 + relOff + s.length
            · rw [if_neg (by omega), if_neg (by omega),
                write_region_get? hw pos, if_neg (by rw [hdl]; omega),
                write_region_get? hd pos, if_pos ⟨by rw [hhs]; omega, by rw [hhs]; omega⟩,
                if_neg (by rw [hLc]; omega), if_pos (by rw [hTc]; constructor <;> omega)]
              rw [hpayl, hhs]
              rw [List.get?_append (by omega)]
            · by_cases h5 : 19 + relOff + s.length ≤ pos ∧
                  pos < 19 + relOff + s.length + totalLen rest
              · rw [if_neg (by omega), if_pos (by constructor <;> omega),
                  if_neg (by rw [hLc]; omega), if_pos (by rw [hTc]; constructor <;> omega)]
                rw [hpayl]
                rw [List.get?_append_right (by omega)]
                congr 1
                omega
              · rw [if_neg (by omega), if_neg (by omega),
                  write_region_get? hw pos, if_neg (by rw [hdl]; omega),
                  write_region_get? hd pos, if_neg (by rw [hhs]; omega),
                  if_neg (by rw [hLc]; omega), if_neg (by rw [hTc]; omega)]

end VerStub

namespace VerStub

/-- Pointwise description of the encoded buffer: byte 0 is the member count,
bytes `1 ..< 19` the offset table, then the payload, then zero padding. -/
theorem build_section_buffer_get? (member_data : List (Option (List Nat))) (B : Nat)
    (hmd : member_data.length = 9) (hcap : 19 + totalLen member_data ≤ B) :
    ∃ out, build_section_buffer member_data B = .ok out ∧ out.length = B ∧
      ∀ pos : Nat,
        out.get? pos =
          if pos = 0 then some 9
          else if 1 ≤ pos ∧ pos < 19 then some (hdrByte member_data 0 (pos - 1))
          else if 19 ≤ pos ∧ pos < 19 + totalLen member_data then
            (payloadBytes member_data).get? (pos - 19)
          else if pos < B then some 0 else none := by
  have hB : 19 ≤ B := by omega
  rw [build_section_buffer]
  have hset : 0 < (List.replicate B 0 : List Nat).length := by
    rw [List.length_replicate]
    omega
  rw [setByte_ok hset, exceptOkBind]
  obtain ⟨out, hout, houtlen, hdesc⟩ := build_loop_get? B member_data 0 0
    ((List.replicate B 0).set 0 memberCount)
    (by rw [List.length_set, List.length_replicate]) (by omega) hB (by omega)
  refine ⟨out, hout, houtlen, fun pos => ?_⟩
  rw [hdesc pos]
  by_cases h0 : pos = 0
  · subst h0
    rw [if_neg (by omega), if_neg (by omega), if_pos rfl]
    rw [List.get?_set_eq_of_lt _ (by rw [List.length_replicate]; omega)]
    rfl
  · by_cases h1 : 1 ≤ pos ∧ pos < 19
    · rw [if_pos (by rw [hmd]; omega), if_neg h0, if_pos h1]
    · by_cases h2 : 19 ≤ pos ∧ pos < 19 + totalLen member_data
      · rw [if_neg (by rw [hmd]; omega), if_pos (by omega), if_neg h0, if_neg h1,
          if_pos h2]
      · rw [if_neg (by rw [hmd]; omega), if_neg (by omega), if_neg h0, if_neg h1,
          if_neg h2]
        rw [List.get?_set_ne _ _ (by omega)]
        rw [get?_replicate]

end VerStub

namespace VerStub

/-- C4 (amended): for every member-data array, when the cumulative size of the
present strings plus the 19-byte header (1 + 2*COUNT) exceeds the buffer size,
encoding always fails fatally and never produces a truncated buffer, panicking
with the size comparison in the message whenever the buffer is at least
header-sized (below 19 bytes the failure can instead be an out-of-bounds
header-write panic, as the counterexample shows); when it fits, encoding
succeeds with a buffer of exactly the requested size. -/
theorem encode_capacity_error :
    ∀ (member_data : List (Option (List Nat))) (buffer_size : Nat),
      member_data.length = 9 →
      ((buffer_size < 19 + totalLen member_data →
          ∃ e, build_section_buffer member_data buffer_size = .error e) ∧
       (19 ≤ buffer_size → buffer_size < 19 + totalLen member_data →
          isCapacityError (build_section_buffer member_data buffer_size) = true) ∧
       (19 + totalLen member_data ≤ buffer_size →
          ∃ buf, build_section_buffer member_data buffer_size = .ok buf ∧
            buf.length = buffer_size)) := by
  intro member_data buffer_size hmd
  refine ⟨?_, ?_, ?_⟩
  · intro hover
    by_cases h0 : buffer_size = 0
    · subst h0
      rw [build_section_buffer]
      rw [show setByte (List.replicate 0 0) 0 memberCount = .error .indexOutOfBounds from rfl]
      exact ⟨_, rfl⟩
    · rw [build_section_buffer]
      rw [setByte_ok (by rw [List.length_replicate]; omega), exceptOkBind]
      by_cases h19 : 19 ≤ buffer_size
      · obtain ⟨a, ha, _⟩ := build_loop_capacity buffer_size member_data 0 0
          ((List.replicate buffer_size 0).set 0 memberCount)
          (by rw [List.length_set, List.length_replicate]) (by omega) h19 (by omega)
          (by omega)
        exact ⟨_, ha⟩
      · obtain ⟨e, he⟩ := build_loop_hdr_oob buffer_size member_data 0 0
          ((List.replicate buffer_size 0).set 0 memberCount)
          (by intro hnil; rw [hnil] at hmd; simp at hmd)
          (by rw [List.length_set, List.length_replicate]) (by rw [hmd]; omega)
        exact ⟨e, he⟩
  · intro h19 hover
    rw [build_section_buffer]
    rw [setByte_ok (by rw [List.length_replicate]; omega), exceptOkBind]
    obtain ⟨a, ha, _⟩ := build_loop_capacity buffer_size member_data 0 0
      ((List.replicate buffer_size 0).set 0 memberCount)
      (by rw [List.length_set, List.length_replicate]) (by omega) h19 (by omega)
      (by omega)
    rw [ha]
    rfl
  · intro hfit
    rw [build_section_buffer]
    rw [setByte_ok (by rw [List.length_replicate]; omega), exceptOkBind]
    exact build_loop_ok buffer_size member_data 0 0
      ((List.replicate buffer_size 0).set 0 memberCount)
      (by rw [List.length_set, List.length_replicate]) (by omega) (by omega) (by omega)

/-- Counterexample to C4 as stated: with every member absent and buffer size 5
the data (0 bytes) plus the 19-byte header exceeds the buffer, and encoding
does fail — but with an out-of-bounds header write, not the panic carrying the
size comparison. -/
theorem encode_capacity_error_counterexample :
    build_section_buffer (List.replicate 9 none) 5 = .error .indexOutOfBounds ∧
    isCapacityError (build_section_buffer (List.replicate 9 none) 5) = false := by
  constructor
  · decide
  · decide

/-- Witness for C4 at concrete inputs: a 500-byte member overflows a 512-byte
buffer with the capacity panic, and a 4-byte member fits, yielding a 512-byte
buffer. -/
theorem encode_capacity_error_witness :
    isCapacityError (build_section_buffer
      (some (List.replicate 500 97) :: List.replicate 8 none) 512) = true ∧
    (∃ buf, build_section_buffer
      (some [97, 115, 100, 102] :: List.replicate 8 none) 512 = .ok buf ∧
      buf.length = 512) :=
  ⟨((encode_capacity_error (some (List.replicate 500 97) :: List.replicate 8 none) 512
      (by decide)).2.1 (by decide) (by decide)),
   ((encode_capacity_error (some [97, 115, 100, 102] :: List.replicate 8 none) 512
      (by decide)).2.2 (by decide))⟩

end VerStub

namespace VerStub

/-- C1 (amended): for every array of 9 optional UTF-8 strings with every
present string non-empty, fitting in a reader-valid buffer size `B`
(`32 < B ≤ 65535`, payload plus 19-byte header at most `B`), encoding succeeds
and decoding any index `i < COUNT` from the encoded buffer returns exactly the
`i`-th input. -/
theorem roundtrip_encode_decode :
    ∀ (member_data : List (Option (List Nat))) (B : Nat),
      member_data.length = 9 →
      (∀ s, some s ∈ member_data → utf8Valid s = true ∧ s ≠ []) →
      32 < B → B ≤ 65535 →
      19 + totalLen member_data ≤ B →
      ∃ buf, build_section_buffer member_data B = .ok buf ∧ buf.length = B ∧
        ∀ i, i < 9 → get_idx_from_buffer B i buf = .ok (member_data.getD i none) := by
  intro md B hmd hval hB32 hB65 hcap
  obtain ⟨buf, hbuf, hlen, hdesc⟩ := build_section_buffer_get? md B hmd hcap
  refine ⟨buf, hbuf, hlen, fun i hi => ?_⟩
  have htot : totalLen md ≤ B - 19 := by omega
  have hb0 : pureByte buf 0 = 9 := by
    show (buf.get? 0).getD 0 = 9
    rw [hdesc 0, if_pos rfl]
    rfl
  have hh9 : header_size 9 = 19 := rfl
  have hhdr : ∀ j, j < 18 → pureByte buf (1 + j) = hdrByte md 0 j := by
    intro j hj
    show (buf.get? (1 + j)).getD 0 = hdrByte md 0 j
    rw [hdesc (1 + j), if_neg (by omega), if_pos ⟨by omega, by omega⟩]
    have he : 1 + j - 1 = j := by omega
    rw [he]
    rfl
  have hu16 : ∀ t, t < 9 → pureU16 buf (1 + t * 2) = prevCum md (t + 1) := by
    intro t ht
    have hvlt : prevCum md (t + 1) < 65536 := by
      have := prevCum_le_totalLen md (t + 1)
      omega
    unfold pureU16
    rw [hhdr (t * 2) (by omega)]
    have hp2 : 1 + t * 2 + 1 = 1 + (t * 2 + 1) := by omega
    rw [hp2, hhdr (t * 2 + 1) (by omega)]
    have hj0 : hdrByte md 0 (t * 2) = prevCum md (t + 1) % 256 := by
      unfold hdrByte
      rw [if_pos (by omega)]
      have hq : t * 2 / 2 = t := by omega
      rw [hq, Nat.zero_add]
    have hj1 : hdrByte md 0 (t * 2 + 1) = prevCum md (t + 1) / 256 % 256 := by
      unfold hdrByte
      rw [if_neg (by omega)]
      have hq : (t * 2 + 1) / 2 = t := by omega
      rw [hq, Nat.zero_add]
    rw [hj0, hj1]
    rw [lor_shiftLeft_eq_add _ (by omega)]
    omega
  have hend : derivedEnd buf i = 19 + prevCum md (i + 1) := by
    unfold derivedEnd
    rw [hb0, hh9, hu16 i hi]
  have hstart : derivedStart buf i = 19 + prevCum md i := by
    unfold derivedStart
    by_cases h0 : i = 0
    · rw [if_pos h0, hb0, hh9, h0, prevCum_zero]
    · rw [if_neg h0, hb0, hh9, hu16 (i - 1) (by omega)]
      have he : i - 1 + 1 = i := by omega
      rw [he]
  obtain ⟨d, hd⟩ : ∃ d, md.get? i = some d := by
    cases hg : md.get? i with
    | none =>
      have := List.get?_eq_none.mp hg
      omega
    | some d => exact ⟨d, rfl⟩
  have hgd : md.getD i none = d := by
    show (md.get? i).getD none = d
    rw [hd]
    rfl
  rw [get_idx_from_buffer_eq_of_inbounds B i buf (by omega) (by omega) (by omega)]
  cases d with
  | none =>
    have hse : derivedStart buf i = derivedEnd buf i := by
      rw [hstart, hend, prevCum_succ_get?_none hd]
    rw [if_pos hse, hgd]
  | some s =>
    obtain ⟨hutf, hne⟩ := hval s (List.get?_mem hd)
    have hslen : 0 < s.length := List.length_pos.mpr hne
    have hpc : prevCum md (i + 1) = prevCum md i + s.length := prevCum_succ_get?_some hd
    have hple : prevCum md (i + 1) ≤ totalLen md := prevCum_le_totalLen md (i + 1)
    have hslice : sliceBytes buf (derivedStart buf i) (derivedEnd buf i) = s := by
      apply List.ext_get?
      intro j
      unfold sliceBytes
      by_cases hj : j < s.length
      · rw [List.get?_take (by omega)]
        rw [List.get?_drop]
        have hpos : derivedStart buf i + j = 19 + (prevCum md i + j) := by omega
        rw [hpos, hdesc (19 + (prevCum md i + j)), if_neg (by omega),
          if_neg (by omega), if_pos ⟨by omega, by omega⟩]
        have hidx2 : 19 + (prevCum md i + j) - 19 = prevCum md i + j := by omega
        rw [hidx2]
        exact payload_get?_of_member md i hd j hj
      · rw [List.get?_eq_none.mpr (by
            calc ((buf.drop (derivedStart buf i)).take
                (derivedEnd buf i - derivedStart buf i)).length ≤
                derivedEnd buf i - derivedStart buf i := List.length_take_le _ _
              _ ≤ j := by omega)]
        rw [List.get?_eq_none.mpr (by omega)]
    rw [if_neg (by omega), if_neg (by omega), if_neg (by omega), hslice, if_pos hutf, hgd]

end VerStub

namespace VerStub

/-- Counterexample to C1 as stated: the empty string is a UTF-8 string, yet
encoding `Some("")` at index 0 (buffer size 33, a valid reader size) produces
a buffer from which index 0 decodes as absent, not as the empty string —
`start == end` is indistinguishable from absence in this format. -/
theorem roundtrip_encode_decode_counterexample :
    (build_section_buffer (some [] :: List.replicate 8 none) 33).map
      (fun buf => get_idx_from_buffer 33 0 buf) = .ok (.ok none) ∧
    (Except.ok (some ([] : List Nat)) : Except Panic (Option (List Nat))) ≠ .ok none := by
  constructor
  · decide
  · decide

/-- Witness for C1 at the monotonic-packing fixture of the spec ("asdf" at 0,
"jkl;" at 2, "nana" at 5, buffer size 512). -/
theorem roundtrip_encode_decode_witness :
    ∃ buf, build_section_buffer
        [some [97, 115, 100, 102], none, some [106, 107, 108, 59], none, none,
         some [110, 97, 110, 97], none, none, none] 512 = .ok buf ∧
      buf.length = 512 ∧
      ∀ i, i < 9 → get_idx_from_buffer 512 i buf = .ok
        ([some [97, 115, 100, 102], none, some [106, 107, 108, 59], none, none,
          some [110, 97, 110, 97], none, none, none].getD i none) :=
  roundtrip_encode_decode
    [some [97, 115, 100, 102], none, some [106, 107, 108, 59], none, none,
     some [110, 97, 110, 97], none, none, none] 512
    (by decide)
    (by
      intro s hs
      simp only [List.mem_cons, List.not_mem_nil, or_false, reduceCtorEq, false_or,
        Option.some.injEq] at hs
      rcases hs with h | h | h <;> subst h <;> exact ⟨by decide, by decide⟩)
    (by decide) (by decide) (by decide)

end VerStub

namespace VerStub

/-! ## Format detector lemmas -/

theorem detectScan_none_of_all_none :
    ∀ (ls : List (List Char)), (∀ l ∈ ls, formatOfLine l = none) → detectScan ls = none := by
  intro ls
  induction ls with
  | nil => intro _; rfl
  | cons l rest ih =>
    intro h
    rw [detectScan]
    rw [h l (by simp)]
    exact ih (fun x hx => h x (by simp [hx]))

theorem detectScan_some_mem :
    ∀ (ls : List (List Char)) (f : BinaryFormat),
      detectScan ls = some f → ∃ l ∈ ls, formatOfLine l = some f := by
  intro ls
  induction ls with
  | nil => intro f h; simp [detectScan] at h
  | cons l rest ih =>
    intro f h
    rw [detectScan] at h
    cases hf : formatOfLine l with
    | some g =>
      rw [hf] at h
      cases h
      exact ⟨l, by simp, hf⟩
    | none =>
      rw [hf] at h
      obtain ⟨x, hx, hxf⟩ := ih f h
      exact ⟨x, by simp [hx], hxf⟩

theorem detectScan_isSome_of_mem :
    ∀ (ls : List (List Char)) (l : List Char), l ∈ ls → (formatOfLine l).isSome = true →
      (detectScan ls).isSome = true := by
  intro ls
  induction ls with
  | nil => intro l h; simp at h
  | cons x rest ih =>
    intro l hl hsome
    rw [detectScan]
    cases hf : formatOfLine x with
    | some g => simp
    | none =>
      rcases List.mem_cons.mp hl with he | hm
      · subst he
        rw [hf] at hsome
        simp at hsome
      · exact ih l hm hsome

/-- C7: `detect` returns a format exactly when one of the first 5 lines is a
`Format: <value>` line whose value matches (case-insensitively, as a prefix)
one of `elf`, `mach-o`, `coff`; the returned format always comes from such a
line among the first 5; and with no such line in the scanned prefix it
returns nothing. -/
theorem detect_format_characterization :
    (∀ output : List (List Char),
       (detect output).isSome = true ↔
         ∃ l ∈ output.take 5, (formatOfLine l).isSome = true) ∧
    (∀ (output : List (List Char)) (f : BinaryFormat),
       detect output = some f → ∃ l ∈ output.take 5, formatOfLine l = some f) ∧
    (∀ output : List (List Char),
       (∀ l ∈ output.take 5, formatOfLine l = none) → detect output = none) := by
  refine ⟨?_, ?_, ?_⟩
  · intro output
    constructor
    · intro h
      cases hd : detect output with
      | none => rw [hd] at h; simp at h
      | some f =>
        obtain ⟨l, hl, hlf⟩ := detectScan_some_mem _ f hd
        exact ⟨l, hl, by rw [hlf]; rfl⟩
    · rintro ⟨l, hl, hsome⟩
      exact detectScan_isSome_of_mem _ l hl hsome
  · intro output f h
    exact detectScan_some_mem _ f h
  · intro output h
    exact detectScan_none_of_all_none _ h

/-- Witness for C7: a report whose second line is `Format: elf64-x86-64`
detects as ELF (via the characterization), and a report with no `Format:`
line in its first five lines detects as nothing. -/
theorem detect_format_characterization_witness :
    (∃ l ∈ ([("File: a.out"), ("Format: elf64-x86-64")].map String.data).take 5,
       formatOfLine l = some .Elf) ∧
    detect ([("a"), ("b"), ("c"), ("d"), ("e"), ("Format: elf64")].map String.data) = none :=
  ⟨detect_format_characterization.2.1
      ([("File: a.out"), ("Format: elf64-x86-64")].map String.data) .Elf (by decide),
   detect_format_characterization.2.2
      ([("a"), ("b"), ("c"), ("d"), ("e"), ("Format: elf64")].map String.data)
      (by decide)⟩

/-! ## Section patcher: C9 -/

/-- C9: when the section locator reports the target section absent, the patch
step's effect trace is exactly a warning followed by a plain copy; running it
leaves the output path byte-identical to the input binary, a warning is
recorded, the external section editor is never invoked, and the operation
completes (success, not failure). -/
theorem patch_absent_degrades_to_copy :
    ∀ (edit : List Nat → List Nat → List Nat) (fs : FileStore)
      (build_bytes : Nat → List Nat) (bin_path output_path : List Char),
      write_to_plan none build_bytes bin_path output_path =
        [.warning .sectionNotFound, .copy bin_path output_path] ∧
      runPlan edit fs (write_to_plan none build_bytes bin_path output_path) output_path =
        fs bin_path ∧
      PatchEffect.warning .sectionNotFound ∈
        write_to_plan none build_bytes bin_path output_path ∧
      (∀ b o bytes, PatchEffect.update_section b o bytes ∉
        write_to_plan none build_bytes bin_path output_path) := by
  intro edit fs build_bytes bin_path output_path
  refine ⟨rfl, ?_, by simp [write_to_plan], by simp [write_to_plan]⟩
  show runPlan edit (fun p => if p = output_path then fs bin_path else fs p) [] output_path =
    fs bin_path
  simp [runPlan]

/-- Witness for C9 at concrete paths and file contents. -/
theorem patch_absent_degrades_to_copy_witness :
    runPlan (fun b _ => b)
      (fun p => if p = ("in").data then [1, 2, 3] else [])
      (write_to_plan none (fun _ => []) (("in").data) (("out").data)) (("out").data) =
      [1, 2, 3] := by
  rw [(patch_absent_degrades_to_copy (fun b _ => b)
    (fun p => if p = ("in").data then [1, 2, 3] else [])
    (fun _ => []) (("in").data) (("out").data)).2.1]
  decide

end VerStub

namespace VerStub

/-! ## ELF parser lemmas -/

theorem elfStep_found {target : List Char} {st : ElfState} {line : List Char}
    {info : SectionInfo} (h : elfStep target st line = .found info) :
    trimCh line = closeBraceLine ∧ st.in_target_section = true ∧
    info.is_writable = st.current_is_writable ∧ st.current_size = some info.size := by
  unfold elfStep at h
  cases hname : extract_name (trimCh line) nameTag with
  | some name => rw [hname] at h; simp at h
  | none =>
    rw [hname] at h
    cases hit : st.in_target_section with
    | false =>
      rw [hit] at h
      simp only [Bool.false_eq_true, if_false] at h
      rw [if_neg (by simp)] at h
      by_cases hcb : trimCh line = closeBraceLine ∧ False
      · exact absurd hcb (by simp)
      · rw [if_neg (by simp)] at h
        split at h <;> simp at h
    | true =>
      rw [hit] at h
      simp only [if_true] at h
      cases hsz : stripPfxCh sizeTag (trimCh line) with
      | some size_str =>
        rw [hsz] at h
        cases hps : parse_size size_str with
        | ok n => simp [hps] at h
        | error e => simp [hps] at h
      | none =>
        rw [hsz] at h
        dsimp only at h
        by_cases hshf : containsSub shfWriteTok (trimCh line) = true
        · rw [if_pos (by simp [hshf])] at h
          simp at h
        · rw [if_neg (by simp [hshf])] at h
          by_cases hcb : trimCh line = closeBraceLine
          · rw [if_pos (by exact ⟨hcb, trivial⟩)] at h
            cases hcs : st.current_size with
            | some size =>
              rw [hcs] at h
              cases h
              exact ⟨hcb, rfl, rfl, rfl⟩
            | none => rw [hcs] at h; simp at h
          · rw [if_neg (by intro hc; exact hcb hc.1)] at h
            split at h <;> simp at h

end VerStub

namespace VerStub

/-! ## Generic scan-loop lemmas -/

/-- If a step function only returns from the loop on a closing-marker line,
a report without closing markers can never identify a section. -/
theorem runParse_no_close {σ : Type} (step : σ → List Char → StepRes σ)
    (hstep : ∀ st l info, step st l = .found info → trimCh l = closeBraceLine) :
    ∀ (lines : List (List Char)) (st : σ),
      (∀ l ∈ lines, trimCh l ≠ closeBraceLine) →
      returnsSome (runParse step lines st) = false := by
  intro lines
  induction lines with
  | nil => intro st _; rfl
  | cons l ls ih =>
    intro st hno
    rw [runParse]
    cases hs : step st l with
    | next st' => exact ih st' (fun x hx => hno x (by simp [hx]))
    | found info => exact absurd (hstep st l info hs) (hno l (by simp))
    | fail e => rfl

/-- A state invariant that forces every step to continue scanning makes the
whole scan return `Ok(None)`. -/
theorem runParse_ok_none_inv {σ : Type} (step : σ → List Char → StepRes σ)
    (P : σ → Prop) (L : List Char → Prop)
    (hstep : ∀ st l, P st → L l → ∃ st', step st l = .next st' ∧ P st') :
    ∀ (lines : List (List Char)) (st : σ),
      P st → (∀ l ∈ lines, L l) → runParse step lines st = .ok none := by
  intro lines
  induction lines with
  | nil => intro st _ _; rfl
  | cons l ls ih =>
    intro st hP hL
    obtain ⟨st', hs, hP'⟩ := hstep st l hP (hL l (by simp))
    rw [runParse, hs]
    exact ih st' hP' (fun x hx => hL x (by simp [hx]))

/-- A state invariant preserved by continuing steps and implying a property of
any returned section carries that property to the scan's successful result. -/
theorem runParse_found_inv {σ : Type} (step : σ → List Char → StepRes σ)
    (P : σ → Prop) (Q : SectionInfo → Prop) (L : List Char → Prop)
    (hnext : ∀ st l st', P st → L l → step st l = .next st' → P st')
    (hfound : ∀ st l info, P st → L l → step st l = .found info → Q info) :
    ∀ (lines : List (List Char)) (st : σ),
      P st → (∀ l ∈ lines, L l) → ∀ info,
        runParse step lines st = .ok (some info) → Q info := by
  intro lines
  induction lines with
  | nil => intro st _ _ info h; simp [runParse] at h
  | cons l ls ih =>
    intro st hP hL info h
    rw [runParse] at h
    cases hs : step st l with
    | next st' =>
      rw [hs] at h
      exact ih st' (hnext st l st' hP (hL l (by simp)) hs)
        (fun x hx => hL x (by simp [hx])) info h
    | found info' =>
      rw [hs] at h
      cases h
      exact hfound st l info hP (hL l (by simp)) hs
    | fail e => rw [hs] at h; simp at h

end VerStub

namespace VerStub

theorem elfStep_not_target {target : List Char} {st : ElfState} {line : List Char}
    (hit : st.in_target_section = false)
    (hn : ∀ n, extract_name (trimCh line) nameTag = some n → n ≠ target) :
    ∃ st', elfStep target st line = .next st' ∧ st'.in_target_section = false := by
  unfold elfStep
  cases hname : extract_name (trimCh line) nameTag with
  | some name =>
    exact ⟨_, rfl, decide_eq_false (hn name hname)⟩
  | none =>
    rw [hit]
    simp only [Bool.false_eq_true, if_false, Bool.false_and]
    rw [if_neg (by simp)]
    by_cases hso : trimCh line = sectionOpenLine
    · rw [if_pos hso]
      exact ⟨_, rfl, rfl⟩
    · rw [if_neg hso]
      exact ⟨_, rfl, hit⟩

theorem elfStep_writable_next {target : List Char} {st : ElfState} {line : List Char}
    {st' : ElfState}
    (hw : st.current_is_writable = false)
    (hc : containsSub shfWriteTok (trimCh line) = false)
    (h : elfStep target st line = .next st') :
    st'.current_is_writable = false := by
  unfold elfStep at h
  cases hname : extract_name (trimCh line) nameTag with
  | some name =>
    rw [hname] at h
    cases h
    exact hw
  | none =>
    rw [hname] at h
    cases hit : st.in_target_section with
    | false =>
      rw [hit] at h
      simp only [Bool.false_eq_true, if_false, Bool.false_and] at h
      rw [if_neg (by simp)] at h
      by_cases hso : trimCh line = sectionOpenLine
      · rw [if_pos hso] at h
        cases h
        rfl
      · rw [if_neg hso] at h
        cases h
        exact hw
    | true =>
      rw [hit] at h
      simp only [if_true] at h
      cases hsz : stripPfxCh sizeTag (trimCh line) with
      | some size_str =>
        rw [hsz] at h
        cases hps : parse_size size_str with
        | ok n =>
          simp only [hps] at h
          cases h
          exact hw
        | error e => simp [hps] at h
      | none =>
        rw [hsz] at h
        dsimp only at h
        rw [if_neg (by simp [hc])] at h
        by_cases hcb : trimCh line = closeBraceLine
        · rw [if_pos (by exact ⟨hcb, trivial⟩)] at h
          cases hcs : st.current_size with
          | some size => rw [hcs] at h; simp at h
          | none =>
            rw [hcs] at h
            cases h
            exact hw
        · rw [if_neg (by intro hx; exact hcb hx.1)] at h
          by_cases hso : trimCh line = sectionOpenLine
          · rw [if_pos hso] at h
            cases h
            rfl
          · rw [if_neg hso] at h
            cases h
            exact hw

end VerStub

namespace VerStub

/-! ## COFF parser lemmas -/

theorem coffStep_found {target : List Char} {st : CoffState} {line : List Char}
    {info : SectionInfo} (h : coffStep target st line = .found info) :
    trimCh line = closeBraceLine ∧ st.in_target_section = true := by
  unfold coffStep at h
  cases hname : extract_name (trimCh line) nameTag with
  | some name => rw [hname] at h; simp at h
  | none =>
    rw [hname] at h
    cases hit : st.in_target_section with
    | false =>
      rw [hit] at h
      simp only [Bool.false_eq_true, if_false, Bool.false_and] at h
      rw [if_neg (by simp)] at h
      split at h <;> simp at h
    | true =>
      rw [hit] at h
      simp only [if_true] at h
      cases hsz : stripPfxCh rawDataSizeTag (trimCh line) with
      | some size_str =>
        rw [hsz] at h
        cases hps : parse_size size_str with
        | ok n => simp [hps] at h
        | error e => simp [hps] at h
      | none =>
        rw [hsz] at h
        dsimp only at h
        by_cases hshf : containsSub imageScnMemWriteTok (trimCh line) = true
        · rw [if_pos (by simp [hshf])] at h
          simp at h
        · rw [if_neg (by simp [hshf])] at h
          by_cases hcb : trimCh line = closeBraceLine
          · exact ⟨hcb, rfl⟩
          · rw [if_neg (by intro hx; exact hcb hx.1)] at h
            split at h <;> simp at h

theorem coffStep_not_target {target : List Char} {st : CoffState} {line : List Char}
    (hit : st.in_target_section = false)
    (hn : ∀ n, extract_name (trimCh line) nameTag = some n → n ≠ target) :
    ∃ st', coffStep target st line = .next st' ∧ st'.in_target_section = false := by
  unfold coffStep
  cases hname : extract_name (trimCh line) nameTag with
  | some name =>
    exact ⟨_, rfl, decide_eq_false (hn name hname)⟩
  | none =>
    rw [hit]
    simp only [Bool.false_eq_true, if_false, Bool.false_and]
    rw [if_neg (by simp)]
    by_cases hso : trimCh line = sectionOpenLine
    · rw [if_pos hso]
      exact ⟨_, rfl, rfl⟩
    · rw [if_neg hso]
      exact ⟨_, rfl, hit⟩

end VerStub

namespace VerStub

/-! ## Mach-O parser lemmas -/

theorem matches_ne_section {current_name target_section : List Char}
    (h : current_name ≠ target_section)
    (current_segment : Option (List Char)) (target_segment : Option (List Char)) :
    matches_macho_section current_segment current_name target_segment target_section =
      false := by
  unfold matches_macho_section
  rw [if_pos h]

theorem matches_none_qualified (current_name target_seg target_section : List Char) :
    matches_macho_section none current_name (some target_seg) target_section = false := by
  unfold matches_macho_section
  by_cases h : current_name ≠ target_section
  · rw [if_pos h]
  · rw [if_neg h]

theorem matches_qualified_iff (current_seg current_name target_seg target_section :
    List Char) :
    matches_macho_section (some current_seg) current_name (some target_seg)
        target_section = true ↔
      current_name = target_section ∧ current_seg = target_seg := by
  unfold matches_macho_section
  by_cases h : current_name ≠ target_section
  · rw [if_pos h]
    simp [h]
  · rw [if_neg h]
    push_neg at h
    simp [h]

theorem matches_bare_iff (current_segment : Option (List Char))
    (current_name target_section : List Char) :
    matches_macho_section current_segment current_name none target_section = true ↔
      current_name = target_section := by
  unfold matches_macho_section
  by_cases h : current_name ≠ target_section
  · rw [if_pos h]
    simp [h]
  · rw [if_neg h]
    push_neg at h
    simp [h]

theorem machoStep_found {tso : Option (List Char)} {tsec : List Char} {st : MachoState}
    {line : List Char} {info : SectionInfo}
    (h : machoStep tso tsec st line = .found info) :
    trimCh line = closeBraceLine ∧ st.in_target_section = true ∧
    info.is_writable = st.current_is_writable := by
  unfold machoStep at h
  cases hseg : extract_name (trimCh line) segmentTag with
  | some seg =>
    rw [hseg] at h
    simp at h
  | none =>
    rw [hseg] at h
    cases hname : extract_name (trimCh line) nameTag with
    | some name => rw [hname] at h; simp at h
    | none =>
      rw [hname] at h
      cases hit : st.in_target_section with
      | false =>
        rw [hit] at h
        simp only [Bool.false_eq_true, if_false] at h
        rw [if_neg (by simp)] at h
        split at h <;> simp at h
      | true =>
        rw [hit] at h
        simp only [if_true] at h
        cases hsz : stripPfxCh sizeTag (trimCh line) with
        | some size_str =>
          rw [hsz] at h
          cases hps : parse_size size_str with
          | ok n => simp [hps] at h
          | error e => simp [hps] at h
        | none =>
          rw [hsz] at h
          dsimp only at h
          by_cases hcb : trimCh line = closeBraceLine
          · rw [if_pos (by exact ⟨hcb, trivial⟩)] at h
            cases hcs : st.current_size with
            | some size =>
              rw [hcs] at h
              cases h
              exact ⟨hcb, rfl, rfl⟩
            | none => rw [hcs] at h; simp at h
          · rw [if_neg (by intro hx; exact hcb hx.1)] at h
            split at h <;> simp at h

end VerStub

namespace VerStub

theorem machoStep_next_inv {tso : Option (List Char)} {tsec : List Char} {st : MachoState}
    {line : List Char} {st' : MachoState}
    (hw : st.current_is_writable = decide (st.current_segment = some dataSegment))
    (ht : st.in_target_section = true → ∃ name, st.current_name = some name ∧
      matches_macho_section st.current_segment name tso tsec = true)
    (h : machoStep tso tsec st line = .next st') :
    st'.current_is_writable = decide (st'.current_segment = some dataSegment) ∧
    (st'.in_target_section = true → ∃ name, st'.current_name = some name ∧
      matches_macho_section st'.current_segment name tso tsec = true) := by
  unfold machoStep at h
  cases hseg : extract_name (trimCh line) segmentTag with
  | some seg =>
    rw [hseg] at h
    cases hcn : st.current_name with
    | some name =>
      rw [hcn] at h
      cases h
      refine ⟨by simp, ?_⟩
      intro hmt
      exact ⟨name, rfl, hmt⟩
    | none =>
      rw [hcn] at h
      cases h
      refine ⟨by simp, ?_⟩
      intro hmt
      obtain ⟨name, hname, _⟩ := ht hmt
      rw [hcn] at hname
      cases hname
  | none =>
    rw [hseg] at h
    cases hname : extract_name (trimCh line) nameTag with
    | some name =>
      rw [hname] at h
      cases h
      refine ⟨hw, ?_⟩
      intro hmt
      exact ⟨name, rfl, hmt⟩
    | none =>
      rw [hname] at h
      cases hit : st.in_target_section with
      | false =>
        rw [hit] at h
        simp only [Bool.false_eq_true, if_false] at h
        rw [if_neg (by simp)] at h
        by_cases hso : trimCh line = sectionOpenLine
        · rw [if_pos hso] at h
          cases h
          exact ⟨by simp, by intro hx; cases hx⟩
        · rw [if_neg hso] at h
          cases h
          exact ⟨hw, ht⟩
      | true =>
        rw [hit] at h
        simp only [if_true] at h
        cases hsz : stripPfxCh sizeTag (trimCh line) with
        | some size_str =>
          rw [hsz] at h
          cases hps : parse_size size_str with
          | ok n =>
            simp only [hps] at h
            cases h
            refine ⟨hw, ?_⟩
            intro _
            exact ht hit
          | error e => simp [hps] at h
        | none =>
          rw [hsz] at h
          dsimp only at h
          by_cases hcb : trimCh line = closeBraceLine
          · rw [if_pos (by exact ⟨hcb, trivial⟩)] at h
            cases hcs : st.current_size with
            | some size => rw [hcs] at h; simp at h
            | none =>
              rw [hcs] at h
              cases h
              exact ⟨hw, ht⟩
          · rw [if_neg (by intro hx; exact hcb hx.1)] at h
            by_cases hso : trimCh line = sectionOpenLine
            · rw [if_pos hso] at h
              cases h
              exact ⟨by simp, by intro hx; cases hx⟩
            · rw [if_neg hso] at h
              cases h
              exact ⟨hw, ht⟩

end VerStub

namespace VerStub

theorem machoStep_no_segment {tseg tsec : List Char} {st : MachoState} {line : List Char}
    (hseg0 : st.current_segment = none) (hit : st.in_target_section = false)
    (hl : extract_name (trimCh line) segmentTag = none) :
    ∃ st', machoStep (some tseg) tsec st line = .next st' ∧
      st'.current_segment = none ∧ st'.in_target_section = false := by
  unfold machoStep
  rw [hl]
  cases hname : extract_name (trimCh line) nameTag with
  | some name =>
    refine ⟨_, rfl, hseg0, ?_⟩
    show matches_macho_section st.current_segment name (some tseg) tsec = false
    rw [hseg0]
    exact matches_none_qualified name tseg tsec
  | none =>
    rw [hit]
    simp only [Bool.false_eq_true, if_false]
    rw [if_neg (by simp)]
    by_cases hso : trimCh line = sectionOpenLine
    · rw [if_pos hso]
      exact ⟨_, rfl, rfl, rfl⟩
    · rw [if_neg hso]
      exact ⟨_, rfl, hseg0, hit⟩

theorem machoStep_writable_false_next {tso : Option (List Char)} {tsec : List Char}
    {st : MachoState} {line : List Char} {st' : MachoState}
    (hw : st.current_is_writable = false)
    (hl : ∀ seg, extract_name (trimCh line) segmentTag = some seg → seg ≠ dataSegment)
    (h : machoStep tso tsec st line = .next st') :
    st'.current_is_writable = false := by
  unfold machoStep at h
  cases hseg : extract_name (trimCh line) segmentTag with
  | some seg =>
    rw [hseg] at h
    have hne := hl seg hseg
    cases hcn : st.current_name with
    | some name =>
      rw [hcn] at h
      cases h
      exact decide_eq_false hne
    | none =>
      rw [hcn] at h
      cases h
      exact decide_eq_false hne
  | none =>
    rw [hseg] at h
    cases hname : extract_name (trimCh line) nameTag with
    | some name =>
      rw [hname] at h
      cases h
      exact hw
    | none =>
      rw [hname] at h
      cases hit : st.in_target_section with
      | false =>
        rw [hit] at h
        simp only [Bool.false_eq_true, if_false] at h
        rw [if_neg (by simp)] at h
        by_cases hso : trimCh line = sectionOpenLine
        · rw [if_pos hso] at h
          cases h
          rfl
        · rw [if_neg hso] at h
          cases h
          exact hw
      | true =>
        rw [hit] at h
        simp only [if_true] at h
        cases hsz : stripPfxCh sizeTag (trimCh line) with
        | some size_str =>
          rw [hsz] at h
          cases hps : parse_size size_str with
          | ok n =>
            simp only [hps] at h
            cases h
            exact hw
          | error e => simp [hps] at h
        | none =>
          rw [hsz] at h
          dsimp only at h
          by_cases hcb : trimCh line = closeBraceLine
          · rw [if_pos (by exact ⟨hcb, trivial⟩)] at h
            cases hcs : st.current_size with
            | some size => rw [hcs] at h; simp at h
            | none =>
              rw [hcs] at h
              cases h
              exact hw
          · rw [if_neg (by intro hx; exact hcb hx.1)] at h
            by_cases hso : trimCh line = sectionOpenLine
            · rw [if_pos hso] at h
              cases h
              rfl
            · rw [if_neg hso] at h
              cases h
              exact hw

theorem machoStep_not_target {tso : Option (List Char)} {tsec : List Char}
    {st : MachoState} {line : List Char}
    (hnm : ∀ n, st.current_name = some n → n ≠ tsec)
    (hit : st.in_target_section = false)
    (hl : ∀ n, extract_name (trimCh line) nameTag = some n → n ≠ tsec) :
    ∃ st', machoStep tso tsec st line = .next st' ∧
      (∀ n, st'.current_name = some n → n ≠ tsec) ∧
      st'.in_target_section = false := by
  unfold machoStep
  cases hseg : extract_name (trimCh line) segmentTag with
  | some seg =>
    cases hcn : st.current_name with
    | some name =>
      dsimp only
      refine ⟨_, rfl, ?_, ?_⟩
      · intro n hn
        injection hn with hn2
        subst hn2
        exact hnm _ hcn
      · show matches_macho_section (some seg) name tso tsec = false
        exact matches_ne_section (hnm name hcn) _ _
    | none =>
      dsimp only
      refine ⟨_, rfl, ?_, hit⟩
      intro n hn
      exact Option.noConfusion hn
  | none =>
    cases hname : extract_name (trimCh line) nameTag with
    | some name =>
      dsimp only
      refine ⟨_, rfl, ?_, ?_⟩
      · intro n hn
        injection hn with hn2
        subst hn2
        exact hl _ hname
      · show matches_macho_section st.current_segment name tso tsec = false
        exact matches_ne_section (hl name hname) _ _
    | none =>
      rw [hit]
      simp only [Bool.false_eq_true, if_false]
      rw [if_neg (by simp)]
      by_cases hso : trimCh line = sectionOpenLine
      · rw [if_pos hso]
        refine ⟨_, rfl, ?_, rfl⟩
        intro n hn
        cases hn
      · rw [if_neg hso]
        exact ⟨_, rfl, hnm, hit⟩

end VerStub

namespace VerStub

/-- C5: Mach-O section matching — a qualified `"segment,section"` target
matches exactly when both the tracked segment and the section name are equal,
and can never match before a `Segment:` value has been observed; a bare name
matches on name equality alone; and the reported writability is exactly
"the matched block's segment is `__DATA`" (for a qualified target it equals
`decide (segment = __DATA)`; it can only be true when some `Segment: __DATA`
line exists), independent of any flag line. -/
theorem macho_section_matching :
    (∀ (cseg name tseg tsec : List Char),
        matches_macho_section (some cseg) name (some tseg) tsec = true ↔
          (name = tsec ∧ cseg = tseg)) ∧
    (∀ (name tseg tsec : List Char),
        matches_macho_section none name (some tseg) tsec = false) ∧
    (∀ (segOpt : Option (List Char)) (name tsec : List Char),
        matches_macho_section segOpt name none tsec = true ↔ name = tsec) ∧
    (∀ (lines : List (List Char)) (target tseg : List Char) (info : SectionInfo),
        (macho_target target).1 = some tseg →
        parse_macho_sections lines target = .ok (some info) →
        info.is_writable = decide (tseg = dataSegment)) ∧
    (∀ (lines : List (List Char)) (target tseg : List Char),
        (macho_target target).1 = some tseg →
        (∀ l ∈ lines, extract_name (trimCh l) segmentTag = none) →
        parse_macho_sections lines target = .ok none) ∧
    (∀ (lines : List (List Char)) (target : List Char) (info : SectionInfo),
        (∀ l ∈ lines, ∀ seg, extract_name (trimCh l) segmentTag = some seg →
          seg ≠ dataSegment) →
        parse_macho_sections lines target = .ok (some info) →
        info.is_writable = false) := by
  refine ⟨?_, ?_, ?_, ?_, ?_, ?_⟩
  · intro cseg name tseg tsec
    exact matches_qualified_iff cseg name tseg tsec
  · intro name tseg tsec
    exact matches_none_qualified name tseg tsec
  · intro segOpt name tsec
    exact matches_bare_iff segOpt name tsec
  · intro lines target tseg info h1 h2
    rw [parse_macho_sections, h1] at h2
    refine runParse_found_inv (machoStep (some tseg) (macho_target target).2)
      (fun st => st.current_is_writable = decide (st.current_segment = some dataSegment) ∧
        (st.in_target_section = true → ∃ name, st.current_name = some name ∧
          matches_macho_section st.current_segment name (some tseg)
            (macho_target target).2 = true))
      (fun i => i.is_writable = decide (tseg = dataSegment))
      (fun _ => True)
      ?_ ?_ lines _ ⟨by simp, by intro hx; cases hx⟩ (fun _ _ => trivial) info h2
    · intro st l st' hP _ hs
      exact machoStep_next_inv hP.1 hP.2 hs
    · intro st l i hP _ hs
      obtain ⟨_, hin, hwr⟩ := machoStep_found hs
      obtain ⟨name, _, hm⟩ := hP.2 hin
      cases hcs : st.current_segment with
      | none =>
        rw [hcs] at hm
        rw [matches_none_qualified] at hm
        cases hm
      | some cseg =>
        rw [hcs] at hm
        obtain ⟨_, hseq⟩ := (matches_qualified_iff cseg name tseg _).mp hm
        rw [hwr, hP.1, hcs, hseq]
        by_cases hdd : tseg = dataSegment
        · rw [hdd]
          simp
        · rw [decide_eq_false hdd, decide_eq_false (by simpa using hdd)]
  · intro lines target tseg h1 h2
    rw [parse_macho_sections, h1]
    exact runParse_ok_none_inv (machoStep (some tseg) (macho_target target).2)
      (fun st => st.current_segment = none ∧ st.in_target_section = false)
      (fun l => extract_name (trimCh l) segmentTag = none)
      (fun st l hP hL => by
        obtain ⟨st', hs, h3, h4⟩ := machoStep_no_segment hP.1 hP.2 hL
        exact ⟨st', hs, h3, h4⟩)
      lines _ ⟨rfl, rfl⟩ h2
  · intro lines target info h1 h2
    rw [parse_macho_sections] at h2
    refine runParse_found_inv (machoStep (macho_target target).1 (macho_target target).2)
      (fun st => st.current_is_writable = false)
      (fun i => i.is_writable = false)
      (fun l => ∀ seg, extract_name (trimCh l) segmentTag = some seg → seg ≠ dataSegment)
      ?_ ?_ lines _ rfl h1 info h2
    · intro st l st' hP hL hs
      exact machoStep_writable_false_next hP hL hs
    · intro st l i hP _ hs
      obtain ⟨_, _, hwr⟩ := machoStep_found hs
      rw [hwr, hP]

end VerStub

namespace VerStub

/-- Witness for C5: a qualified match with matching segment and name holds; a
qualified match with no observed segment fails; and parsing the `__TEXT`
fixture with target `__TEXT,ver_stub` reports writability equal to
`decide (__TEXT = __DATA)` (i.e. false). -/
theorem macho_section_matching_witness :
    matches_macho_section (some (("__TEXT").data)) (("ver_stub").data)
      (some (("__TEXT").data)) (("ver_stub").data) = true ∧
    matches_macho_section none (("ver_stub").data)
      (some (("__TEXT").data)) (("ver_stub").data) = false ∧
    (SectionInfo.mk 512 false).is_writable = decide ((("__TEXT").data) = dataSegment) :=
  ⟨(macho_section_matching.1 (("__TEXT").data) (("ver_stub").data)
      (("__TEXT").data) (("ver_stub").data)).mpr ⟨rfl, rfl⟩,
   macho_section_matching.2.1 (("ver_stub").data) (("__TEXT").data) (("ver_stub").data),
   macho_section_matching.2.2.2.1
     ([("Section \x7b"), ("  Index: 0"), ("  Name: ver_stub (76 65 72)"),
       ("  Segment: __TEXT (5F 5F 54 45)"), ("  Size: 0x200"), ("\x7d")].map String.data)
     (("__TEXT,ver_stub").data) (("__TEXT").data) ⟨512, false⟩
     (by decide) (by decide)⟩

/-- C6 (amended): the ELF parser matches the `Name:` value (with any trailing
parenthesized annotation stripped) exactly against the target — when no line
carries the exact target name the result is absence; the size is taken from
the matched block's `Size:` line parsed as decimal or `0x`-prefixed
hexadecimal (the size parser shared by all three formats); writability is
true precisely when a line of the matched block contains `SHF_WRITE` (false
whenever no scanned line contains the token); and in particular the
`ver_stub`/`Size: 512`/`SHF_WRITE` report yields size 512, writable. -/
theorem elf_section_parsing :
    parse_elf_sections
      ([("Section \x7b"), ("  Index: 16"), ("  Name: ver_stub (472)"),
        ("  Type: SHT_PROGBITS (0x1)"), ("  Flags [ (0x3)"), ("    SHF_ALLOC (0x2)"),
        ("    SHF_WRITE (0x1)"), ("  ]"), ("  Size: 512"), ("\x7d")].map String.data)
      (("ver_stub").data) = .ok (some ⟨512, true⟩) ∧
    (parse_size (("512").data) = .ok 512 ∧ parse_size ((" 0x200").data) = .ok 512) ∧
    (∀ (lines : List (List Char)) (target : List Char) (info : SectionInfo),
        (∀ l ∈ lines, containsSub shfWriteTok (trimCh l) = false) →
        parse_elf_sections lines target = .ok (some info) →
        info.is_writable = false) ∧
    (∀ (lines : List (List Char)) (target : List Char),
        (∀ l ∈ lines, ∀ n, extract_name (trimCh l) nameTag = some n → n ≠ target) →
        parse_elf_sections lines target = .ok none) := by
  refine ⟨by decide, ⟨by decide, by decide⟩, ?_, ?_⟩
  · intro lines target info h1 h2
    rw [parse_elf_sections] at h2
    refine runParse_found_inv (elfStep target)
      (fun st => st.current_is_writable = false)
      (fun i => i.is_writable = false)
      (fun l => containsSub shfWriteTok (trimCh l) = false)
      ?_ ?_ lines _ rfl h1 info h2
    · intro st l st' hP hL hs
      exact elfStep_writable_next hP hL hs
    · intro st l i hP _ hs
      obtain ⟨_, _, hwr, _⟩ := elfStep_found hs
      rw [hwr, hP]
  · intro lines target h1
    rw [parse_elf_sections]
    exact runParse_ok_none_inv (elfStep target)
      (fun st => st.in_target_section = false)
      (fun l => ∀ n, extract_name (trimCh l) nameTag = some n → n ≠ target)
      (fun st l hP hL => elfStep_not_target hP hL)
      lines _ rfl h1

/-- Counterexample to C6 as stated: a matched ELF block whose `Size:` value is
the hexadecimal text `0x200` parses successfully to 512 — yet decimal parsing
of that same text fails — so the ELF size is not "parsed as a decimal
number". -/
theorem elf_section_parsing_counterexample :
    parse_elf_sections
      ([("Section \x7b"), ("  Name: ver_stub (472)"), ("  Size: 0x200"),
        ("\x7d")].map String.data) (("ver_stub").data) = .ok (some ⟨512, false⟩) ∧
    parseUnsignedRadix digitVal? 10 (trimCh ((" 0x200").data)) = none := by
  constructor
  · decide
  · decide

/-- Witness for C6: the universally quantified conjuncts applied at a concrete
report with no `SHF_WRITE` token and at a report with no matching name. -/
theorem elf_section_parsing_witness :
    (SectionInfo.mk 16 false).is_writable = false ∧
    parse_elf_sections
      ([("Section \x7b"), ("  Name: other (1)"), ("  Size: 16"),
        ("\x7d")].map String.data) (("ver_stub").data) = .ok none :=
  ⟨elf_section_parsing.2.2.1
     ([("Section \x7b"), ("  Name: ver_stub (472)"), ("  Size: 16"),
       ("\x7d")].map String.data) (("ver_stub").data) ⟨16, false⟩ (by decide) (by decide),
   elf_section_parsing.2.2.2
     ([("Section \x7b"), ("  Name: other (1)"), ("  Size: 16"),
       ("\x7d")].map String.data) (("ver_stub").data)
     (fun l hl n hn => by
        have hall : ∀ l ∈ ([("Section \x7b"), ("  Name: other (1)"), ("  Size: 16"),
            ("\x7d")].map String.data), extract_name (trimCh l) nameTag = none ∨
            extract_name (trimCh l) nameTag = some (("other").data) := by decide
        rcases hall l hl with he | he
        · rw [he] at hn
          exact Option.noConfusion hn
        · rw [he] at hn
          injection hn with hn2
          subst hn2
          decide)⟩

end VerStub

namespace VerStub

/-- C8: each of the three section parsers returns a successful identification
only when a closing-marker line is reached (no closing marker in the report
means no success); with per-block reset, a report in which no `Name:` line
carries the target name yields `Ok(None)` for all three parsers; an unclosed
matching block followed by a fresh block does not leak its matched state
(concrete reset scenario); and a non-numeric size in a matched block yields a
parse error, never `Ok(None)`. -/
theorem parser_scan_discipline :
    (∀ (lines : List (List Char)) (target : List Char),
        (∀ l ∈ lines, trimCh l ≠ closeBraceLine) →
        returnsSome (parse_elf_sections lines target) = false) ∧
    (∀ (lines : List (List Char)) (target : List Char),
        (∀ l ∈ lines, trimCh l ≠ closeBraceLine) →
        returnsSome (parse_macho_sections lines target) = false) ∧
    (∀ (lines : List (List Char)) (target : List Char),
        (∀ l ∈ lines, trimCh l ≠ closeBraceLine) →
        returnsSome (parse_coff_sections lines target) = false) ∧
    (∀ (lines : List (List Char)) (target : List Char),
        (∀ l ∈ lines, ∀ n, extract_name (trimCh l) nameTag = some n → n ≠ target) →
        parse_elf_sections lines target = .ok none) ∧
    (∀ (lines : List (List Char)) (target : List Char),
        (∀ l ∈ lines, ∀ n, extract_name (trimCh l) nameTag = some n →
          n ≠ (macho_target target).2) →
        parse_macho_sections lines target = .ok none) ∧
    (∀ (lines : List (List Char)) (target : List Char),
        (∀ l ∈ lines, ∀ n, extract_name (trimCh l) nameTag = some n → n ≠ target) →
        parse_coff_sections lines target = .ok none) ∧
    parse_elf_sections
      ([("Section \x7b"), ("  Name: ver_stub (472)"), ("  Size: 512"),
        ("Section \x7b"), ("\x7d")].map String.data) (("ver_stub").data) = .ok none ∧
    parse_elf_sections
      ([("Section \x7b"), ("  Name: ver_stub (472)"), ("  Size: banana"),
        ("\x7d")].map String.data) (("ver_stub").data) =
      .error (.invalidData (("banana").data)) := by
  refine ⟨?_, ?_, ?_, ?_, ?_, ?_, by decide, by decide⟩
  · intro lines target h1
    rw [parse_elf_sections]
    exact runParse_no_close (elfStep target)
      (fun st l info hs => (elfStep_found hs).1) lines _ h1
  · intro lines target h1
    rw [parse_macho_sections]
    exact runParse_no_close (machoStep (macho_target target).1 (macho_target target).2)
      (fun st l info hs => (machoStep_found hs).1) lines _ h1
  · intro lines target h1
    rw [parse_coff_sections]
    exact runParse_no_close (coffStep target)
      (fun st l info hs => (coffStep_found hs).1) lines _ h1
  · intro lines target h1
    rw [parse_elf_sections]
    exact runParse_ok_none_inv (elfStep target)
      (fun st => st.in_target_section = false)
      (fun l => ∀ n, extract_name (trimCh l) nameTag = some n → n ≠ target)
      (fun st l hP hL => elfStep_not_target hP hL)
      lines _ rfl h1
  · intro lines target h1
    rw [parse_macho_sections]
    exact runParse_ok_none_inv
      (machoStep (macho_target target).1 (macho_target target).2)
      (fun st => (∀ n, st.current_name = some n → n ≠ (macho_target target).2) ∧
        st.in_target_section = false)
      (fun l => ∀ n, extract_name (trimCh l) nameTag = some n →
        n ≠ (macho_target target).2)
      (fun st l hP hL => by
        obtain ⟨st', hs, h3, h4⟩ := machoStep_not_target hP.1 hP.2 hL
        exact ⟨st', hs, h3, h4⟩)
      lines _ ⟨fun n hn => Option.noConfusion hn, rfl⟩ h1
  · intro lines target h1
    rw [parse_coff_sections]
    exact runParse_ok_none_inv (coffStep target)
      (fun st => st.in_target_section = false)
      (fun l => ∀ n, extract_name (trimCh l) nameTag = some n → n ≠ target)
      (fun st l hP hL => coffStep_not_target hP hL)
      lines _ rfl h1

/-- Witness for C8: a report with no closing marker yields no identification,
and a report whose only name is not the target yields `Ok(None)`, for the ELF
parser at concrete inputs. -/
theorem parser_scan_discipline_witness :
    returnsSome (parse_elf_sections
      ([("Section \x7b"), ("  Name: ver_stub (472)"),
        ("  Size: 512")].map String.data) (("ver_stub").data)) = false ∧
    parse_coff_sections
      ([("Section \x7b"), ("  Name: other (1)"), ("  RawDataSize: 16"),
        ("\x7d")].map String.data) (("ver_stub").data) = .ok none :=
  ⟨parser_scan_discipline.1
     ([("Section \x7b"), ("  Name: ver_stub (472)"),
       ("  Size: 512")].map String.data) (("ver_stub").data) (by decide),
   parser_scan_discipline.2.2.2.2.2.1
     ([("Section \x7b"), ("  Name: other (1)"), ("  RawDataSize: 16"),
       ("\x7d")].map String.data) (("ver_stub").data)
     (fun l hl n hn => by
        have hall : ∀ l ∈ ([("Section \x7b"), ("  Name: other (1)"),
            ("  RawDataSize: 16"), ("\x7d")].map String.data),
            extract_name (trimCh l) nameTag = none ∨
            extract_name (trimCh l) nameTag = some (("other").data) := by decide
        rcases hall l hl with he | he
        · rw [he] at hn
          exact Option.noConfusion hn
        · rw [he] at hn
          injection hn with hn2
          subst hn2
          decide)⟩

end VerStub
